import Mathlib

/-
Verification of the Proteus project-analysis engine.

This file gives a shallow embedding, in Lean 4, of the analysis detectors of
the Proteus CLI (src/detectors/types.ts, src/detectors/stack.ts, the patterns
and documents detector modules, and calculateConfidence from src/cli.ts), and
proves or refutes the specified properties about them.

Modelling conventions:
  * TypeScript string enumerations become Lean inductive types.
  * Machine/JS numbers that only ever hold the exact decimal constants
    0.1 .. 1.0 are modelled as rationals (exact arithmetic).
  * The filesystem is a finite tree; `fs.readFile` of a missing file is
    `none`; `JSON.parse` is modelled by storing, next to each file's text,
    its parse result (`none` for malformed JSON), mirroring the`try/catch`
    in `createContext` that maps both unreadable and unparseable files to
    `null`.
  * JavaScript string operations (split, trim, toLowerCase, includes,
    startsWith and the concrete regex literals of the source) are compiled
    by hand to executable functions on `List Char`; each definition cites
    the regex or string method it implements.  Regexes are ASCII-faithful
    (the source only matches ASCII and CJK literals, on which JS and the
    model agree).
-/

namespace Proteus

-- ============================================
-- Enumerations from src/types.ts
-- ============================================

/-- `Language` union type from src/types.ts. -/
inductive Language where
  | typescript | javascript | go | python | rust | ruby | java | php | unknown
deriving DecidableEq, Repr, Inhabited

/-- `Framework` union type from src/types.ts. -/
inductive Framework where
  | nextjs | react | vue | angular | svelte | express | fastify | nestjs
  | gin | echo | fiber | django | flask | fastapi | rails | spring | laravel
  | actix | axum | unknown
deriving DecidableEq, Repr, Inhabited

/-- `TestFramework` union type from src/types.ts. -/
inductive TestFramework where
  | jest | vitest | mocha | pytest | goTest | rspec | junit | phpunit | unknown
deriving DecidableEq, Repr, Inhabited

/-- `PackageManager` union type from src/types.ts. -/
inductive PackageManager where
  | npm | yarn | pnpm | bun | goModules | pip | poetry | cargo | bundler
  | maven | gradle | composer | unknown
deriving DecidableEq, Repr, Inhabited

/-- `NamingConvention` union type from src/types.ts. -/
inductive NamingConvention where
  | camelCase | pascalCase | snakeCase | kebabCase | screamingSnakeCase | mixed
deriving DecidableEq, Repr, Inhabited, Fintype

-- ============================================
-- Character helpers (hand-compiled JS string/regex primitives)
-- ============================================

/-- ASCII `[a-z]`. -/
def isLowerAZ (c : Char) : Bool := 'a' ≤ c && c ≤ 'z'

/-- ASCII `[A-Z]`. -/
def isUpperAZ (c : Char) : Bool := 'A' ≤ c && c ≤ 'Z'

/-- ASCII `[0-9]`. -/
def isDigit09 (c : Char) : Bool := '0' ≤ c && c ≤ '9'

/-- ASCII `[a-zA-Z0-9]`. -/
def isAlnum (c : Char) : Bool := isLowerAZ c || isUpperAZ c || isDigit09 c

/-- JS `\s` restricted to its ASCII members (space, tab, newline, CR, VT, FF);
the source never feeds other whitespace code points to `\s`. -/
def isWs (c : Char) : Bool :=
  c = ' ' || c = '\t' || c = '\n' || c = '\r' || c = '\x0b' || c = '\x0c'

/-- `String.prototype.split(sep)` for a one-character separator, on char
lists: `"".split` gives `[""]`, a trailing separator yields a final `""`. -/
def splitChar (sep : Char) : List Char → List (List Char)
  | [] => [[]]
  | c :: cs =>
    match splitChar sep cs with
    | [] => [[]]
    | r :: rs => if c = sep then [] :: r :: rs else (c :: r) :: rs

/-- Split a string into its lines, as JS `content.split('\n')`. -/
def toLines (s : String) : List String := (splitChar '\n' s.data).map String.mk

/-- `Array.prototype.join('\n')` / the inverse of `toLines`. -/
def joinLines (ls : List String) : String :=
  String.mk ((ls.map String.data).intersperse ['\n']).flatten

/-- Nodes `path.join(base, name)` as used on the relative paths produced by
`scanSubdirectories` (base is either `''` or a clean relative path). -/
def pathJoin (base name : String) : String :=
  if base = "" then name else base ++ "/" ++ name

/-- JS `String.prototype.trim()` (ASCII whitespace). -/
def trimChars (cs : List Char) : List Char :=
  ((cs.dropWhile isWs).reverse.dropWhile isWs).reverse

/-- JS `String.prototype.trim()` on strings. -/
def trimStr (s : String) : String := String.mk (trimChars s.data)

/-- JS `String.prototype.toLowerCase()`; ASCII letters are lowered and all
other code points (the CJK header aliases) are unchanged, as in JS. -/
def lowerChars (cs : List Char) : List Char := cs.map Char.toLower

/-- List-prefix test used to hand-compile anchored regex fragments. -/
def isPrefixL : List Char → List Char → Bool
  | [], _ => true
  | _ :: _, [] => false
  | a :: as, b :: bs => a = b && isPrefixL as bs

/-- JS `String.prototype.includes(needle)` on char lists. -/
def hasInfixL (hay needle : List Char) : Bool :=
  match hay with
  | [] => needle.isEmpty
  | _ :: tl => isPrefixL needle hay || hasInfixL tl needle

/-- JS `haystack.includes(needle)` on strings. -/
def strIncludes (hay needle : String) : Bool := hasInfixL hay.data needle.data

-- ============================================
-- Naming-Convention Classifier (detectNamingConvention, patterns.ts)
-- ============================================

/-- Regex `/^[a-z][a-zA-Z0-9]*$/` (the `camelCase` pattern). -/
def matchCamel (cs : List Char) : Bool :=
  match cs with
  | [] => false
  | c :: rest => isLowerAZ c && rest.all isAlnum

/-- Regex `/^[A-Z][a-zA-Z0-9]*$/` (the `PascalCase` pattern). -/
def matchPascal (cs : List Char) : Bool :=
  match cs with
  | [] => false
  | c :: rest => isUpperAZ c && rest.all isAlnum

/-- Regex `/^[a-z][a-z0-9_]*$/` (the `snake_case` pattern). -/
def matchSnake (cs : List Char) : Bool :=
  match cs with
  | [] => false
  | c :: rest => isLowerAZ c && rest.all (fun d => isLowerAZ d || isDigit09 d || d = '_')

/-- Regex `/^[a-z][a-z0-9-]*$/` (the `kebab-case` pattern). -/
def matchKebab (cs : List Char) : Bool :=
  match cs with
  | [] => false
  | c :: rest => isLowerAZ c && rest.all (fun d => isLowerAZ d || isDigit09 d || d = '-')

/-- Regex `/^[A-Z][A-Z0-9_]*$/` (the `SCREAMING_SNAKE_CASE` pattern). -/
def matchScreaming (cs : List Char) : Bool :=
  match cs with
  | [] => false
  | c :: rest => isUpperAZ c && rest.all (fun d => isUpperAZ d || isDigit09 d || d = '_')

/-- The `patterns` object of `detectNamingConvention`, in insertion order. -/
def namingPatterns : List (NamingConvention × (List Char → Bool)) :=
  [(NamingConvention.camelCase, matchCamel),
   (NamingConvention.pascalCase, matchPascal),
   (NamingConvention.snakeCase, matchSnake),
   (NamingConvention.kebabCase, matchKebab),
   (NamingConvention.screamingSnakeCase, matchScreaming)]

/-- Count how many of the five casing regexes match a name (used to settle
the mutual-exclusivity claim about the regex set). -/
def regexMatchCount (name : String) : Nat :=
  namingPatterns.countP (fun p => p.2 name.data)

/-- `path.basename`: the part after the last `/` (the sampled glob results
never carry a trailing slash). -/
def baseNameChars (cs : List Char) : List Char := (splitChar '/' cs).getLastD []

/-- `name.replace(/\.[^.]+$/, '')`: strip a final dot-extension
(no dot, or a trailing dot, leaves the name unchanged). -/
def stripExtChars (cs : List Char) : List Char :=
  let rev := cs.reverse
  let afterRev := rev.takeWhile (fun c => c ≠ '.')
  if afterRev.length = rev.length then cs
  else if afterRev.isEmpty then cs
  else (rev.drop (afterRev.length + 1)).reverse

/-- The per-sample classification step of `detectNamingConvention`: strip the
directory and extension, then take the first matching pattern in insertion
order (`break` after the first hit), else tally as `mixed`. -/
def classifySample (sample : String) : NamingConvention :=
  let name := stripExtChars (baseNameChars sample.data)
  match namingPatterns.find? (fun p => p.2 name) with
  | some p => p.1
  | none => NamingConvention.mixed

/-- The `counts` record of `detectNamingConvention`, as a tally function. -/
def tally (samples : List String) (c : NamingConvention) : Nat :=
  (samples.map classifySample).count c

/-- Iteration order of `Object.entries(counts)` in the dominant-scan loop. -/
def conventionOrder : List NamingConvention :=
  [NamingConvention.camelCase, NamingConvention.pascalCase,
   NamingConvention.snakeCase, NamingConvention.kebabCase,
   NamingConvention.screamingSnakeCase, NamingConvention.mixed]

/-- The dominant-scan loop of `detectNamingConvention`: starting from
`maxCount = 0, dominant = 'mixed'`, take each convention whose count strictly
exceeds the running maximum. -/
def pickDominant (count : NamingConvention → Nat) : NamingConvention × Nat :=
  conventionOrder.foldl
    (fun acc c => if count c > acc.2 then (c, count c) else acc)
    (NamingConvention.mixed, 0)

/-- `detectNamingConvention` (patterns.ts).  The JS threshold test
`maxCount < samples.length * 0.6` is modelled exactly as
`5 * maxCount < 3 * length`. -/
def detectNamingConvention (samples : List String) : NamingConvention :=
  if samples.length = 0 then NamingConvention.mixed
  else
    let dom := pickDominant (tally samples)
    if 5 * dom.2 < 3 * samples.length then NamingConvention.mixed else dom.1

-- ============================================
-- Document Parser (documents.ts): extractSection, extractCustomSections,
-- parseClaudeMd
-- ============================================

/-- Regex `^##\s*${pattern}\s*$` (flag `i`), tested against `line.trim()` in
`extractSection`: the trimmed line must be `##`, optional whitespace, the
alias (case-insensitively), optional trailing whitespace. -/
def matchesHeaderAlias (line p : String) : Bool :=
  match trimChars line.data with
  | '#' :: '#' :: rest =>
    let t := rest.dropWhile isWs
    let pl := lowerChars p.data
    isPrefixL pl (lowerChars t) && (t.drop pl.length).all isWs
  | _ => false

/-- Regex `/^##\s/` tested against the raw line: the section-terminator check
in `extractSection`'s loop. -/
def isLevel2Start (line : String) : Bool :=
  match line.data with
  | '#' :: '#' :: c :: _ => isWs c
  | _ => false

/-- Regex `/^\d+\.\s/` tested against the trimmed line (numbered list item). -/
def numberedTest (t : List Char) : Bool :=
  let ds := t.takeWhile isDigit09
  !ds.isEmpty &&
    (match t.drop ds.length with
     | '.' :: c :: _ => isWs c
     | _ => false)

/-- `trimmed.replace(/^\d+\.\s*/, '')`, only invoked after `numberedTest`. -/
def numberedStrip (t : List Char) : List Char :=
  let ds := t.takeWhile isDigit09
  match t.drop ds.length with
  | '.' :: rest => rest.dropWhile isWs
  | _ => t

/-- The list-item extraction step of `extractSection`: bulleted (`- ` / `* `)
items keep `trimmed.slice(2).trim()`; numbered items strip the number;
anything else contributes nothing. -/
def itemOf (l : String) : List String :=
  let t := trimChars l.data
  match t with
  | '-' :: ' ' :: rest => [String.mk (trimChars rest)]
  | '*' :: ' ' :: rest => [String.mk (trimChars rest)]
  | _ => if numberedTest t then [String.mk (trimChars (numberedStrip t))] else []

/-- The line loop of `extractSection` over pre-split lines, with the
`inSection` flag: a target header (re)enters the section, a `##` line while
in section breaks the whole loop, and in-section list items are collected. -/
def extractSectionGo (targets : List String) : List String → Bool → List String
  | [], _ => []
  | l :: ls, inSec =>
    if targets.any (fun p => matchesHeaderAlias l p) then extractSectionGo targets ls true
    else if inSec && isLevel2Start l then []
    else if inSec then itemOf l ++ extractSectionGo targets ls true
    else extractSectionGo targets ls false

/-- `extractSection` (documents.ts). -/
def extractSection (content : String) (headerPatterns : List String) : List String :=
  extractSectionGo headerPatterns (toLines content) false

/-- The `knownHeaders` array of `extractCustomSections`. -/
def knownHeaders : List String :=
  ["rules", "ルール", "conventions", "規約",
   "must do", "prefer", "warnings", "注意",
   "tech stack", "commands", "project structure"]

/-- `knownHeaders.some(h => currentHeader.toLowerCase().includes(h))`. -/
def isKnownHeader (h : String) : Bool :=
  knownHeaders.any (fun k => hasInfixL (lowerChars h.data) k.data)

/-- Regex `/^##\s+(.+)$/` on a raw line: `##`, at least one whitespace, and a
nonempty remainder, which is the capture. -/
def headerCapture (line : String) : Option String :=
  match line.data with
  | '#' :: '#' :: c :: rest =>
    if isWs c then
      let cap := (c :: rest).dropWhile isWs
      if cap.isEmpty then none else some (String.mk cap)
    else none
  | _ => none

/-- JS object-key assignment `sections[k] = v` (overwrite if present). -/
def recordSet (m : List (String × String)) (k v : String) : List (String × String) :=
  if m.any (fun p => p.1 = k) then m.map (fun p => if p.1 = k then (k, v) else p)
  else m ++ [(k, v)]

/-- The save-previous-section step of `extractCustomSections`: a nonempty
current header that is not a known header stores the joined, trimmed body. -/
def flushCustom (sections : List (String × String)) (header : String)
    (content : List String) : List (String × String) :=
  if header = "" then sections
  else if isKnownHeader header then sections
  else recordSet sections header (trimStr (joinLines content))

/-- The line loop of `extractCustomSections`: state is the current header,
its accumulated body lines, and the sections map. -/
def extractCustomGo : List String → String → List String →
    List (String × String) → List (String × String)
  | [], header, content, sections => flushCustom sections header content
  | l :: ls, header, content, sections =>
    match headerCapture l with
    | some cap => extractCustomGo ls (trimStr cap) [] (flushCustom sections header content)
    | none =>
      if header ≠ "" then extractCustomGo ls header (content ++ [l]) sections
      else extractCustomGo ls header content sections

/-- `extractCustomSections` (documents.ts). -/
def extractCustomSections (content : String) : List (String × String) :=
  extractCustomGo (toLines content) "" [] []

/-- `ClaudeMdContent` (documents.ts), minus the filesystem `path`. -/
structure ClaudeMdContent where
  content : String
  rules : List String
  conventions : List String
  warnings : List String
  mustDo : List String
  prefer : List String
  customSections : List (String × String)
deriving DecidableEq, Repr

def rulesAliases : List String := ["Rules", "ルール", "Project Rules"]

def conventionsAliases : List String := ["Conventions", "規約", "Code Conventions"]

def warningsAliases : List String := ["Warnings", "注意", "警告", "Cautions"]

def mustDoAliases : List String := ["Must Do", "必須", "Required"]

def preferAliases : List String := ["Prefer", "推奨", "Recommended"]

/-- `parseClaudeMd` (documents.ts), taking the file's content directly (the
actual function first reads the file, which is I/O glue). -/
def parseClaudeMd (content : String) : ClaudeMdContent :=
  { content := content
    rules := extractSection content rulesAliases
    conventions := extractSection content conventionsAliases
    warnings := extractSection content warningsAliases
    mustDo := extractSection content mustDoAliases
    prefer := extractSection content preferAliases
    customSections := extractCustomSections content }

/-- All header aliases of the five recognized categories. -/
def allAliases : List String :=
  rulesAliases ++ conventionsAliases ++ warningsAliases ++ mustDoAliases ++ preferAliases

/-- A heading text is "in a known alias list" when it equals one of the five
categories' aliases up to case (which is exactly when a `## <h>` line is
recognized by `extractSection` for that category). -/
def inAliasLists (h : String) : Bool :=
  allAliases.any (fun p => lowerChars h.data = lowerChars p.data)

/-- The five categories' alias lists, in the order of the
`parseClaudeMd` fields. -/
def categoryAliasLists : List (List String) :=
  [rulesAliases, conventionsAliases, warningsAliases, mustDoAliases, preferAliases]

/-- The lines of one section of a structured rules document: its `## `
heading line followed by its body lines. -/
def sectionLines (s : String × List String) : List String :=
  ("## " ++ s.1) :: s.2

/-- A line that acts as plain section content for both parsers: it is not a
`##` heading line (raw) and matches no category alias after trimming. -/
def plainLine (l : String) : Bool :=
  (headerCapture l).isNone && !isLevel2Start l
    && !(allAliases.any (fun p => matchesHeaderAlias l p))

/-- A well-formed section: its heading line parses back to exactly its
(nonempty, trim-stable) heading text, and every body line is plain
content. -/
def wellFormedSection (s : String × List String) : Bool :=
  (headerCapture ("## " ++ s.1) == some s.1) && (trimStr s.1 == s.1)
    && (s.1 != "") && s.2.all plainLine

/-- The list items `extractSection` collects: the items of the body of the
first section whose heading matches one of the given aliases (none ⇒ `[]`). -/
def firstSectionItems (targets : List String)
    (sections : List (String × List String)) : List String :=
  match sections.find? (fun s => targets.any
      (fun p => matchesHeaderAlias ("## " ++ s.1) p)) with
  | some s => s.2.flatMap itemOf
  | none => []

-- ============================================
-- Stack / pattern data model (src/types.ts)
-- ============================================

/-- `StackItem` (src/types.ts): one ecosystem instance. -/
structure StackItem where
  language : Language
  languageVersion : Option String
  framework : Framework
  frameworkVersion : Option String
  testFramework : TestFramework
  packageManager : PackageManager
  path : String
  name : Option String
deriving DecidableEq, Repr, Inhabited

/-- The workspace-system discriminator of `MonorepoInfo`. -/
inductive MonorepoType where
  | pnpmWorkspaces | npmWorkspaces | yarnWorkspaces | turborepo
  | nx | lerna | goWorkspace | cargoWorkspace
deriving DecidableEq, Repr, Inhabited

/-- `MonorepoInfo` (src/types.ts). -/
structure MonorepoInfo where
  type : MonorepoType
  rootPath : String
  workspaces : List String
deriving DecidableEq, Repr

/-- `TechStack` (src/types.ts), including the multi-stack extension fields
used by `detectStack`. -/
structure TechStack where
  language : Language
  languageVersion : Option String
  framework : Framework
  frameworkVersion : Option String
  testFramework : TestFramework
  packageManager : PackageManager
  styling : Option String
  database : Option String
  additionalTools : List String
  «stacks» : List StackItem
  monorepo : Option MonorepoInfo
  allLanguages : List Language
  allFrameworks : List Framework
deriving DecidableEq, Repr

/-- The `type` field of `DirectoryStructure`. -/
inductive StructureType where
  | flat | featureBased | layerBased | hybrid | unknown
deriving DecidableEq, Repr, Inhabited

/-- An entry of `DirectoryStructure.keyDirectories`. -/
structure KeyDirectory where
  path : String
  purpose : String
deriving DecidableEq, Repr

/-- `DirectoryStructure` (src/types.ts). -/
structure DirectoryStructure where
  type : StructureType
  sourceDir : String
  testDir : Option String
  keyDirectories : List KeyDirectory
deriving DecidableEq, Repr

/-- `NamingPatterns.files` (src/types.ts). -/
structure NamingFiles where
  components : Option NamingConvention
  utilities : Option NamingConvention
  tests : Option String
deriving DecidableEq, Repr

/-- `NamingPatterns.code` (src/types.ts). -/
structure NamingCode where
  functions : NamingConvention
  «variables» : NamingConvention
  constants : NamingConvention
  types : Option NamingConvention
  components : Option NamingConvention
deriving DecidableEq, Repr

/-- `NamingPatterns` (src/types.ts). -/
structure NamingPatterns where
  files : NamingFiles
  code : NamingCode
deriving DecidableEq, Repr

/-- `CodePatterns` (src/types.ts); the optional imports/exports/etc. fields
are not read by any modelled function and are omitted.  The `structure`
field is renamed `struct` (Lean keyword). -/
structure CodePatterns where
  naming : NamingPatterns
  struct : DirectoryStructure
deriving DecidableEq, Repr

-- ============================================
-- Confidence Scorer (calculateConfidence, src/cli.ts)
-- ============================================

/-- The result record of `calculateConfidence`. -/
structure Confidence where
  stack : ℚ
  patterns : ℚ
  overall : ℚ
deriving DecidableEq, Repr

/-- The stack sub-score weights 0.4 / 0.3 / 0.2 / 0.1 of
`calculateConfidence`, as exact rationals. -/
def stackWeights : List ℚ := [4/10, 3/10, 2/10, 1/10]

/-- The patterns sub-score weights 0.4 / 0.3 / 0.3 of `calculateConfidence`. -/
def patternsWeights : List ℚ := [4/10, 3/10, 3/10]

/-- The `stackScore` accumulator of `calculateConfidence`: `+= 0.4 / 0.3 /
0.2 / 0.1` for each non-`unknown` component. -/
def stackScoreOf (stack : TechStack) : ℚ :=
  (if stack.language ≠ Language.unknown then (4 : ℚ)/10 else 0)
  + (if stack.framework ≠ Framework.unknown then (3 : ℚ)/10 else 0)
  + (if stack.testFramework ≠ TestFramework.unknown then (2 : ℚ)/10 else 0)
  + (if stack.packageManager ≠ PackageManager.unknown then (1 : ℚ)/10 else 0)

/-- The `patternsScore` accumulator of `calculateConfidence`: `+= 0.4 / 0.3 /
0.3` for known structure type, nonempty key directories, and a detected file
naming convention (the JS truthiness test `components || utilities`). -/
def patternsScoreOf (patterns : CodePatterns) : ℚ :=
  (if patterns.struct.type ≠ StructureType.unknown then (4 : ℚ)/10 else 0)
  + (if patterns.struct.keyDirectories.length > 0 then (3 : ℚ)/10 else 0)
  + (if patterns.naming.files.components.isSome || patterns.naming.files.utilities.isSome
     then (3 : ℚ)/10 else 0)

/-- `calculateConfidence` (src/cli.ts).  The JS floating-point literals
0.4/0.3/0.2/0.1 and the `+=` accumulation are modelled in exact rational
arithmetic. -/
def calculateConfidence (stack : TechStack) (patterns : CodePatterns) : Confidence :=
  { stack := stackScoreOf stack, patterns := patternsScoreOf patterns,
    overall := (stackScoreOf stack + patternsScoreOf patterns) / 2 }

-- ============================================
-- JSON values and the filesystem model
-- ============================================

/-- The JSON values the detectors consume: strings, arrays and objects (the
modelled manifests contain no other scalars in positions the detectors
read). -/
inductive Json where
  | str (s : String)
  | arr (elems : List Json)
  | obj (fields : List (String × Json))

/-- JS property access `j?.[k]` on a parsed JSON value. -/
def Json.get? : Json → String → Option Json
  | .obj fields, k => (fields.find? (fun f => f.1 = k)).map (fun f => f.2)
  | _, _ => none

/-- Narrowing of a JSON value to a string (TS reads these fields as
`string`; a non-string here would crash the source, which never happens on
well-typed manifests). -/
def Json.asStr? : Json → Option String
  | .str s => some s
  | _ => none

/-- JS truthiness of a possibly-absent JSON value: `undefined`/`null` and
`''` are falsy; arrays and objects (even empty) are truthy. -/
def jsTruthy : Option Json → Bool
  | none => false
  | some (.str s) => s ≠ ""
  | some (.arr _) => true
  | some (.obj _) => true

/-- A file on disk: its text plus its `JSON.parse` result (`none` when the
text is not valid JSON, so that `readJson`'s `catch` yields `null`). -/
structure FileData where
  text : String
  json : Option Json

/-- A directory tree: named files and named subdirectories. -/
inductive FSTree where
  | node (files : List (String × FileData)) (subdirs : List (String × FSTree))

/-- The plain files of a directory (`entries.filter(isFile)`). -/
def FSTree.filesOf : FSTree → List (String × FileData)
  | .node fs _ => fs

/-- The subdirectories of a directory (`entries.filter(isDirectory)`). -/
def FSTree.subdirsOf : FSTree → List (String × FSTree)
  | .node _ ds => ds

/-- Look up an immediate subdirectory by name. -/
def FSTree.child (t : FSTree) (name : String) : Option FSTree :=
  (t.subdirsOf.find? (fun d => d.1 = name)).map (fun d => d.2)

/-- Descend along already-split path segments. -/
def FSTree.resolveSegs : FSTree → List String → Option FSTree
  | t, [] => some t
  | t, s :: ss =>
    match t.child s with
    | some t2 => t2.resolveSegs ss
    | none => none

/-- Resolve a relative path (as produced by `scanSubdirectories` /
`detectStackInDirectory`): `.` and `''` mean the directory itself, otherwise
slash-separated descent.  `none` plays the role of `fs.readdir`/`fs.stat`
throwing for a missing directory. -/
def FSTree.resolve (t : FSTree) (p : String) : Option FSTree :=
  if p = "." ∨ p = "" then some t
  else t.resolveSegs ((splitChar '/' p.data).map String.mk)

-- ============================================
-- DetectorContext / createContext (src/detectors/stack.ts)
-- ============================================

/-- `DetectorContext`: directory listing plus the safe read functions
(`readFile` is `none` for a missing/unreadable file, `readJson`
additionally for malformed JSON). -/
structure DetectorContext where
  cwd : String
  files : List String
  dirs : List String
  fileText : String → Option String
  fileJson : String → Option Json

def DetectorContext.hasFile (ctx : DetectorContext) (name : String) : Bool :=
  ctx.files.contains name

def DetectorContext.hasDir (ctx : DetectorContext) (name : String) : Bool :=
  ctx.dirs.contains name

def DetectorContext.readFile (ctx : DetectorContext) (name : String) : Option String :=
  ctx.fileText name

def DetectorContext.readJson (ctx : DetectorContext) (name : String) : Option Json :=
  ctx.fileJson name

/-- `createContext` (src/detectors/stack.ts) over the tree model. -/
def createContext (cwd : String) (t : FSTree) : DetectorContext :=
  { cwd := cwd
    files := t.filesOf.map (fun f => f.1)
    dirs := t.subdirsOf.map (fun d => d.1)
    fileText := fun n => (t.filesOf.find? (fun f => f.1 = n)).map (fun f => f.2.text)
    fileJson := fun n => (t.filesOf.find? (fun f => f.1 = n)).bind (fun f => f.2.json) }

-- ============================================
-- Version / name extraction regexes
-- ============================================

/-- `version.replace(/[\^~]/, '')`: remove the first `^` or `~`. -/
def stripCTChars : List Char → List Char
  | [] => []
  | c :: cs => if c = '^' || c = '~' then cs else c :: stripCTChars cs

def stripCaretTilde (s : String) : String := String.mk (stripCTChars s.data)

/-- One line of `/^go\s+(\d+\.\d+)/m`: `go`, whitespace, then the captured
`major.minor` digits. -/
def goVerOfLine (cs : List Char) : Option String :=
  match cs with
  | 'g' :: 'o' :: rest =>
    if (rest.takeWhile isWs).isEmpty then none
    else
      let r := rest.dropWhile isWs
      let d1 := r.takeWhile isDigit09
      if d1.isEmpty then none
      else
        match r.drop d1.length with
        | '.' :: r2 =>
          let d2 := r2.takeWhile isDigit09
          if d2.isEmpty then none else some (String.mk (d1 ++ '.' :: d2))
        | _ => none
  | _ => none

/-- `goMod.match(/^go\s+(\d+\.\d+)/m)`, line-based (`^` with flag `m`). -/
def goModVersion (content : String) : Option String :=
  (toLines content).findSome? (fun l => goVerOfLine l.data)

/-- Match of `/name\s*=\s*"([^"]+)"/` at the current position. -/
def cargoNameAt : List Char → Option String
  | 'n' :: 'a' :: 'm' :: 'e' :: rest =>
    match rest.dropWhile isWs with
    | '=' :: r2 =>
      match r2.dropWhile isWs with
      | '"' :: r3 =>
        let cap := r3.takeWhile (fun c => c ≠ '"')
        if cap.isEmpty then none
        else if (r3.drop cap.length).isEmpty then none
        else some (String.mk cap)
      | _ => none
    | _ => none
  | _ => none

/-- Scan for the first match of `/name\s*=\s*"([^"]+)"/`. -/
def cargoNameScan : List Char → Option String
  | [] => none
  | c :: rest =>
    match cargoNameAt (c :: rest) with
    | some v => some v
    | none => cargoNameScan rest

def cargoPackageName (content : String) : Option String := cargoNameScan content.data

/-- Match of `/module\s+(\S+)/` at the current position. -/
def goModuleAt : List Char → Option String
  | 'm' :: 'o' :: 'd' :: 'u' :: 'l' :: 'e' :: rest =>
    if (rest.takeWhile isWs).isEmpty then none
    else
      let cap := (rest.dropWhile isWs).takeWhile (fun c => !isWs c)
      if cap.isEmpty then none else some (String.mk cap)
  | _ => none

def goModuleScan : List Char → Option String
  | [] => none
  | c :: rest =>
    match goModuleAt (c :: rest) with
    | some v => some v
    | none => goModuleScan rest

/-- `goMod.match(/module\s+(\S+)/)` followed by `.split('/').pop()`. -/
def goModuleName (content : String) : Option String :=
  (goModuleScan content.data).map (fun m => String.mk ((splitChar '/' m.data).getLastD []))

-- ============================================
-- Language Detection (detectAllLanguages)
-- ============================================

/-- `LanguageInfo` (src/detectors/stack.ts). -/
structure LanguageInfo where
  language : Language
  version : Option String
deriving DecidableEq, Repr, Inhabited

/-- The `detected` list of `detectAllLanguages`: marker files in fixed
order; TypeScript suppresses the plain-JavaScript entry. -/
def detectedLanguages (ctx : DetectorContext) : List LanguageInfo :=
  let tsPart : List LanguageInfo :=
    if ctx.hasFile "tsconfig.json" then
      let pkg := ctx.readJson "package.json"
      let version := (((pkg.bind (fun j => j.get? "devDependencies")).bind
        (fun j => j.get? "typescript")).bind Json.asStr?).map stripCaretTilde
      [⟨Language.typescript, version⟩]
    else if ctx.hasFile "package.json" then [⟨Language.javascript, none⟩]
    else []
  let goPart : List LanguageInfo :=
    if ctx.hasFile "go.mod" then
      [⟨Language.go, (ctx.readFile "go.mod").bind goModVersion⟩]
    else []
  let pyPart : List LanguageInfo :=
    if ctx.hasFile "pyproject.toml" || ctx.hasFile "requirements.txt"
        || ctx.hasFile "setup.py" then [⟨Language.python, none⟩] else []
  let rustPart : List LanguageInfo :=
    if ctx.hasFile "Cargo.toml" then [⟨Language.rust, none⟩] else []
  let rubyPart : List LanguageInfo :=
    if ctx.hasFile "Gemfile" then [⟨Language.ruby, none⟩] else []
  let javaPart : List LanguageInfo :=
    if ctx.hasFile "pom.xml" || ctx.hasFile "build.gradle"
        || ctx.hasFile "build.gradle.kts" then [⟨Language.java, none⟩] else []
  let phpPart : List LanguageInfo :=
    if ctx.hasFile "composer.json" then [⟨Language.php, none⟩] else []
  tsPart ++ goPart ++ pyPart ++ rustPart ++ rubyPart ++ javaPart ++ phpPart

/-- `detectAllLanguages` (src/detectors/stack.ts): the detected markers, or
the single-`unknown` fallback when nothing matched. -/
def detectAllLanguages (ctx : DetectorContext) : List LanguageInfo :=
  if (detectedLanguages ctx).length > 0 then detectedLanguages ctx
  else [⟨Language.unknown, none⟩]

-- ============================================
-- Framework Detection (detectAllFrameworks)
-- ============================================

/-- `FrameworkInfo` (src/detectors/stack.ts). -/
structure FrameworkInfo where
  framework : Framework
  version : Option String
  language : Language
deriving DecidableEq, Repr, Inhabited

/-- The dependency-map spread `{...pkg?.dependencies, ...pkg?.devDependencies}`:
a devDependencies entry overrides a dependencies entry. -/
def depsGet (pkg : Option Json) (key : String) : Option Json :=
  match (pkg.bind (fun j => j.get? "devDependencies")).bind (fun j => j.get? key) with
  | some v => some v
  | none => (pkg.bind (fun j => j.get? "dependencies")).bind (fun j => j.get? key)

/-- `deps.<key>.replace(/[\^~]/, '')` as an optional version string. -/
def depVersion (pkg : Option Json) (key : String) : Option String :=
  ((depsGet pkg key).bind Json.asStr?).map stripCaretTilde

/-- `detectAllFrameworks` (src/detectors/stack.ts). -/
def detectAllFrameworks (ctx : DetectorContext) (languages : List LanguageInfo) :
    List FrameworkInfo :=
  let jsPart : List FrameworkInfo :=
    if languages.any (fun l => l.language = Language.typescript
        || l.language = Language.javascript) then
      let pkg := ctx.readJson "package.json"
      let lang := if languages.any (fun l => l.language = Language.typescript)
        then Language.typescript else Language.javascript
      (if jsTruthy (depsGet pkg "next")
        then [⟨Framework.nextjs, depVersion pkg "next", lang⟩] else [])
      ++ (if jsTruthy (depsGet pkg "react") && !jsTruthy (depsGet pkg "next")
        then [⟨Framework.react, depVersion pkg "react", lang⟩] else [])
      ++ (if jsTruthy (depsGet pkg "vue")
        then [⟨Framework.vue, depVersion pkg "vue", lang⟩] else [])
      ++ (if jsTruthy (depsGet pkg "@angular/core")
        then [⟨Framework.angular, depVersion pkg "@angular/core", lang⟩] else [])
      ++ (if jsTruthy (depsGet pkg "svelte")
        then [⟨Framework.svelte, depVersion pkg "svelte", lang⟩] else [])
      ++ (if jsTruthy (depsGet pkg "@nestjs/core")
        then [⟨Framework.nestjs, depVersion pkg "@nestjs/core", lang⟩] else [])
      ++ (if jsTruthy (depsGet pkg "express")
        then [⟨Framework.express, depVersion pkg "express", lang⟩] else [])
      ++ (if jsTruthy (depsGet pkg "fastify")
        then [⟨Framework.fastify, depVersion pkg "fastify", lang⟩] else [])
    else []
  let goPart : List FrameworkInfo :=
    if languages.any (fun l => l.language = Language.go) then
      match ctx.readFile "go.mod" with
      | some gm =>
        (if strIncludes gm "github.com/gin-gonic/gin"
          then [⟨Framework.gin, none, Language.go⟩] else [])
        ++ (if strIncludes gm "github.com/labstack/echo"
          then [⟨Framework.echo, none, Language.go⟩] else [])
        ++ (if strIncludes gm "github.com/gofiber/fiber"
          then [⟨Framework.fiber, none, Language.go⟩] else [])
      | none => []
    else []
  let pyPart : List FrameworkInfo :=
    if languages.any (fun l => l.language = Language.python) then
      let content := ((ctx.readFile "requirements.txt").getD "")
        ++ ((ctx.readFile "pyproject.toml").getD "")
      (if strIncludes content "django"
        then [⟨Framework.django, none, Language.python⟩] else [])
      ++ (if strIncludes content "fastapi"
        then [⟨Framework.fastapi, none, Language.python⟩] else [])
      ++ (if strIncludes content "flask"
        then [⟨Framework.flask, none, Language.python⟩] else [])
    else []
  let rubyPart : List FrameworkInfo :=
    if languages.any (fun l => l.language = Language.ruby) then
      match ctx.readFile "Gemfile" with
      | some g =>
        if strIncludes g "rails" then [⟨Framework.rails, none, Language.ruby⟩] else []
      | none => []
    else []
  let rustPart : List FrameworkInfo :=
    if languages.any (fun l => l.language = Language.rust) then
      match ctx.readFile "Cargo.toml" with
      | some c =>
        (if strIncludes c "actix-web"
          then [⟨Framework.actix, none, Language.rust⟩] else [])
        ++ (if strIncludes c "axum"
          then [⟨Framework.axum, none, Language.rust⟩] else [])
      | none => []
    else []
  jsPart ++ goPart ++ pyPart ++ rubyPart ++ rustPart

-- ============================================
-- Test-Framework / Package-Manager Detection
-- ============================================

/-- `detectTestFramework` (src/detectors/stack.ts). -/
def detectTestFramework (ctx : DetectorContext) (language : Language) : TestFramework :=
  if language = Language.typescript ∨ language = Language.javascript then
    let pkg := ctx.readJson "package.json"
    if jsTruthy (depsGet pkg "vitest") || ctx.hasFile "vitest.config.ts"
        || ctx.hasFile "vitest.config.js" then TestFramework.vitest
    else if jsTruthy (depsGet pkg "jest") || ctx.hasFile "jest.config.js"
        || ctx.hasFile "jest.config.ts" then TestFramework.jest
    else if jsTruthy (depsGet pkg "mocha") then TestFramework.mocha
    else TestFramework.unknown
  else if language = Language.go then TestFramework.goTest
  else if language = Language.python then
    let content := ((ctx.readFile "requirements.txt").getD "")
      ++ ((ctx.readFile "pyproject.toml").getD "")
    if strIncludes content "pytest" then TestFramework.pytest else TestFramework.unknown
  else if language = Language.ruby then
    match ctx.readFile "Gemfile" with
    | some g => if strIncludes g "rspec" then TestFramework.rspec else TestFramework.unknown
    | none => TestFramework.unknown
  else TestFramework.unknown

/-- `detectPackageManager` (src/detectors/stack.ts and its duplicate in
src/detectors/types.ts — the two bodies are identical). -/
def detectPackageManager (ctx : DetectorContext) (language : Language) : PackageManager :=
  if language = Language.typescript ∨ language = Language.javascript then
    if ctx.hasFile "bun.lockb" then PackageManager.bun
    else if ctx.hasFile "pnpm-lock.yaml" then PackageManager.pnpm
    else if ctx.hasFile "yarn.lock" then PackageManager.yarn
    else if ctx.hasFile "package-lock.json" then PackageManager.npm
    else PackageManager.npm
  else if language = Language.go then PackageManager.goModules
  else if language = Language.python then
    if ctx.hasFile "poetry.lock" then PackageManager.poetry else PackageManager.pip
  else if language = Language.rust then PackageManager.cargo
  else if language = Language.ruby then PackageManager.bundler
  else if language = Language.java then
    if ctx.hasFile "pom.xml" then PackageManager.maven else PackageManager.gradle
  else if language = Language.php then PackageManager.composer
  else PackageManager.unknown

-- ============================================
-- Monorepo Detection (detectMonorepo)
-- ============================================

/-- One item line of the pnpm block `(?:\s+-\s+.+\n?)+`: leading whitespace,
a dash, whitespace, then a nonempty rest. -/
def isPnpmItem (cs : List Char) : Bool :=
  if (cs.takeWhile isWs).isEmpty then false
  else
    match cs.dropWhile isWs with
    | '-' :: rest =>
      !(rest.takeWhile isWs).isEmpty && !(rest.dropWhile isWs).isEmpty
    | _ => false

/-- `line.replace(/^\s*-\s*['"]?/, '')`. -/
def stripPnpmItemStart (cs : List Char) : List Char :=
  match cs.dropWhile isWs with
  | '-' :: rest =>
    (match rest.dropWhile isWs with
     | '\'' :: r3 => r3
     | '"' :: r3 => r3
     | r2 => r2)
  | _ => cs

/-- `line.replace(/['"]?\s*$/, '')`. -/
def stripPnpmItemEnd (cs : List Char) : List Char :=
  (match cs.reverse.dropWhile isWs with
   | '\'' :: r => r
   | '"' :: r => r
   | rw => rw).reverse

/-- The pnpm-workspace.yaml extraction
`content?.match(/packages:\s*\n((?:\s+-\s+.+\n?)+)/)` followed by the
per-line cleanup, modelled line-wise for conventionally formatted files: a
`packages:` key line followed by indented `- item` lines (the regex's
tolerance for blank lines inside the block is mirrored by the final
`filter(Boolean)`; its newline-absorption corner cases for unindented item
lines are not modelled). -/
def pnpmWorkspacesOf (content : String) : List String :=
  let lines := toLines content
  match lines.findIdx? (fun l => trimStr l = "packages:") with
  | none => []
  | some i =>
    let block := (lines.drop (i + 1)).takeWhile
      (fun l => isPnpmItem l.data || (trimChars l.data).isEmpty)
    if block.all (fun l => !isPnpmItem l.data) then []
    else (block.map (fun l => String.mk (stripPnpmItemEnd (stripPnpmItemStart l.data)))).filter
      (fun s => s ≠ "")

/-- Match of `/use\s+\(\s*([\s\S]*?)\s*\)/` at the current position (the
lazy capture runs to the first closing parenthesis, which must exist). -/
def goUseAt : List Char → Option (List Char)
  | 'u' :: 's' :: 'e' :: rest =>
    if (rest.takeWhile isWs).isEmpty then none
    else
      match rest.dropWhile isWs with
      | '(' :: r2 =>
        if r2.any (fun c => c = ')') then some (r2.takeWhile (fun c => c ≠ ')'))
        else none
      | _ => none
  | _ => none

def goUseScan : List Char → Option (List Char)
  | [] => none
  | c :: rest =>
    match goUseAt (c :: rest) with
    | some v => some v
    | none => goUseScan rest

/-- The go.work extraction: capture of the `use ( ... )` block, split into
lines, trimmed, empties dropped. -/
def goWorkUses (content : String) : List String :=
  match goUseScan content.data with
  | none => []
  | some block =>
    ((splitChar '\n' block).map (fun l => trimStr (String.mk l))).filter (fun s => s ≠ "")

/-- Match of `/members\s*=\s*\[([\s\S]*?)\]/` at the current position. -/
def cargoMembersAt : List Char → Option (List Char)
  | 'm' :: 'e' :: 'm' :: 'b' :: 'e' :: 'r' :: 's' :: rest =>
    (match rest.dropWhile isWs with
     | '=' :: r2 =>
       (match r2.dropWhile isWs with
        | '[' :: r3 =>
          if r3.any (fun c => c = ']') then some (r3.takeWhile (fun c => c ≠ ']'))
          else none
        | _ => none)
     | _ => none)
  | _ => none

def cargoMembersScan : List Char → Option (List Char)
  | [] => none
  | c :: rest =>
    match cargoMembersAt (c :: rest) with
    | some v => some v
    | none => cargoMembersScan rest

/-- The Cargo.toml workspace extraction: the `members = [ ... ]` block split
on commas, each entry trimmed and stripped of all quotes, empties dropped. -/
def cargoMembers (content : String) : List String :=
  match cargoMembersScan content.data with
  | none => []
  | some block =>
    ((splitChar ',' block).map
      (fun l => String.mk ((trimChars l).filter (fun c => c ≠ '\'' && c ≠ '"')))).filter
      (fun s => s ≠ "")

/-- `string[]` narrowing of a JSON array (the TS code casts; non-string
elements would crash downstream and never occur in the modelled manifests). -/
def jsonStrings : Json → List String
  | .arr xs => xs.filterMap Json.asStr?
  | _ => []

/-- `detectMonorepo` (src/detectors/types.ts): fixed priority chain — pnpm
workspace file, package.json `workspaces` field (yarn if yarn.lock), turbo,
nx, lerna, go.work, Cargo `[workspace]`. -/
def detectMonorepo (ctx : DetectorContext) : Option MonorepoInfo :=
  if ctx.hasFile "pnpm-workspace.yaml" then
    some ⟨MonorepoType.pnpmWorkspaces, ctx.cwd,
      pnpmWorkspacesOf ((ctx.readFile "pnpm-workspace.yaml").getD "")⟩
  else
    let pkg := ctx.readJson "package.json"
    let wsField := pkg.bind (fun j => j.get? "workspaces")
    if jsTruthy wsField then
      let ws := match wsField with
        | some (.arr xs) => jsonStrings (.arr xs)
        | some (.obj fields) =>
          (match (Json.obj fields).get? "packages" with
           | some (.arr xs) => jsonStrings (.arr xs)
           | _ => [])
        | _ => []
      let ty := if ctx.hasFile "yarn.lock" then MonorepoType.yarnWorkspaces
        else MonorepoType.npmWorkspaces
      some ⟨ty, ctx.cwd, ws⟩
    else if ctx.hasFile "turbo.json" then
      let ws := match wsField with
        | some (.arr xs) => jsonStrings (.arr xs)
        | some (.obj fields) =>
          (match (Json.obj fields).get? "packages" with
           | some (.arr xs) => jsonStrings (.arr xs)
           | _ => ["packages/*", "apps/*"])
        | _ => ["packages/*", "apps/*"]
      some ⟨MonorepoType.turborepo, ctx.cwd, ws⟩
    else if ctx.hasFile "nx.json" then
      some ⟨MonorepoType.nx, ctx.cwd, ["packages/*", "apps/*", "libs/*"]⟩
    else if ctx.hasFile "lerna.json" then
      let ws := match (ctx.readJson "lerna.json").bind (fun j => j.get? "packages") with
        | some (.arr xs) => jsonStrings (.arr xs)
        | _ => ["packages/*"]
      some ⟨MonorepoType.lerna, ctx.cwd, ws⟩
    else if ctx.hasFile "go.work" then
      some ⟨MonorepoType.goWorkspace, ctx.cwd,
        goWorkUses ((ctx.readFile "go.work").getD "")⟩
    else
      match ctx.readFile "Cargo.toml" with
      | some cargo =>
        if strIncludes cargo "[workspace]" then
          some ⟨MonorepoType.cargoWorkspace, ctx.cwd, cargoMembers cargo⟩
        else none
      | none => none

-- ============================================
-- Subdirectory Stack Scanner
-- ============================================

/-- `pattern.replace(/\/?\*.*$/, '')`: everything before the first `*`,
minus a directly preceding slash. -/
def globBase (p : String) : String :=
  let before := p.data.takeWhile (fun c => c ≠ '*')
  if before.length = p.data.length then p
  else
    String.mk (match before.reverse with
      | '/' :: r => r.reverse
      | _ => before)

def strStartsWith (s pre : String) : Bool := isPrefixL pre.data s.data

/-- `scanSubdirectories` (src/detectors/types.ts): glob patterns list the
non-dot subdirectories of the glob's base path; plain patterns are kept when
they name an existing directory. -/
def scanSubdirectories (root : FSTree) (patterns : List String) : List String :=
  patterns.flatMap (fun pattern =>
    if strIncludes pattern "*" then
      let basePath := globBase pattern
      match root.resolve basePath with
      | some t =>
        (t.subdirsOf.map (fun d => d.1)).filterMap (fun name =>
          if strStartsWith name "." then none else some (pathJoin basePath name))
      | none => []
    else
      match root.resolve pattern with
      | some _ => [pattern]
      | none => [])

/-- The application-framework whitelist of `detectStackInDirectory` /
`detectStack`. -/
def appFrameworks : List Framework :=
  [Framework.rails, Framework.django, Framework.flask, Framework.fastapi,
   Framework.gin, Framework.echo, Framework.fiber, Framework.nestjs,
   Framework.actix, Framework.axum, Framework.spring, Framework.laravel]

/-- The primary language/framework tie-break of `detectStackInDirectory`:
prefer an application framework, else the first detected framework; the
primary language follows the chosen framework's language. -/
def pickPrimary (languages : List LanguageInfo) (frameworks : List FrameworkInfo) :
    LanguageInfo × Option FrameworkInfo :=
  let lang0 := languages.headD default
  match frameworks.find? (fun f => appFrameworks.contains f.framework) with
  | some fw => ((languages.find? (fun l => l.language = fw.language)).getD lang0, some fw)
  | none =>
    match frameworks.head? with
    | some fw0 =>
      ((languages.find? (fun l => l.language = fw0.language)).getD lang0, some fw0)
    | none => (lang0, none)

/-- The package-name extraction at the end of `detectStackInDirectory`:
`pkg?.name`, falling back (on JS-falsy values) to the Cargo.toml `name`
entry, then the go.mod module basename. -/
def packageNameOf (ctx : DetectorContext) : Option String :=
  let truthyStr : Option String → Bool := fun o =>
    match o with
    | some s => s ≠ ""
    | none => false
  let n1 := ((ctx.readJson "package.json").bind (fun j => j.get? "name")).bind Json.asStr?
  let n2 :=
    if truthyStr n1 then n1
    else
      match ctx.readFile "Cargo.toml" with
      | some c => if c ≠ "" then cargoPackageName c else n1
      | none => n1
  if truthyStr n2 then n2
  else
    match ctx.readFile "go.mod" with
    | some g => if g ≠ "" then goModuleName g else n2
    | none => n2

/-- `detectStackInDirectory` (src/detectors/types.ts).  A missing directory
(`createContext` throwing) and an all-`unknown` language result both yield
`none`. -/
def detectStackInDirectory (root : FSTree) (cwd : String) (relativePath : String) :
    Option StackItem :=
  match root.resolve relativePath with
  | none => none
  | some sub =>
    let ctx := createContext (pathJoin cwd relativePath) sub
    let languages := detectAllLanguages ctx
    if languages.length = 0
        ∨ (languages.length = 1 ∧ (languages.headD default).language = Language.unknown)
    then none
    else
      let frameworks := detectAllFrameworks ctx languages
      let primary := pickPrimary languages frameworks
      some
        { language := primary.1.language
          languageVersion := primary.1.version
          framework := (primary.2.map (fun f => f.framework)).getD Framework.unknown
          frameworkVersion := primary.2.bind (fun f => f.version)
          testFramework := detectTestFramework ctx primary.1.language
          packageManager := detectPackageManager ctx primary.1.language
          path := relativePath
          name := packageNameOf ctx }

-- ============================================
-- Additional Tools Detection (detectAdditionalTools)
-- ============================================

def strEndsWith (s suffix : String) : Bool := isPrefixL suffix.data.reverse s.data.reverse

/-- `detectAdditionalTools` (src/detectors/types.ts), returning
(styling, database, additionalTools). -/
def detectAdditionalTools (ctx : DetectorContext) (language : Language) :
    Option String × Option String × List String :=
  if language = Language.typescript ∨ language = Language.javascript then
    let pkg := ctx.readJson "package.json"
    let d := fun k => jsTruthy (depsGet pkg k)
    let styling :=
      if d "tailwindcss" || ctx.hasFile "tailwind.config.js"
          || ctx.hasFile "tailwind.config.ts" then some "Tailwind CSS"
      else if d "styled-components" then some "styled-components"
      else if d "@emotion/react" then some "Emotion"
      else if ctx.files.any (fun f => strEndsWith f ".module.css"
          || strEndsWith f ".module.scss") then some "CSS Modules"
      else none
    let database :=
      if d "drizzle" || d "drizzle-orm" then some "Drizzle"
      else if d "prisma" || d "@prisma/client" then some "Prisma"
      else none
    let tools :=
      (if d "prisma" || d "@prisma/client" then ["Prisma"] else [])
      ++ (if d "drizzle" || d "drizzle-orm" then ["Drizzle"] else [])
      ++ (if d "zustand" then ["Zustand"] else [])
      ++ (if d "@reduxjs/toolkit" || d "redux" then ["Redux"] else [])
      ++ (if d "jotai" then ["Jotai"] else [])
      ++ (if d "recoil" then ["Recoil"] else [])
      ++ (if d "@tanstack/react-query" then ["React Query"] else [])
      ++ (if d "swr" then ["SWR"] else [])
      ++ (if d "axios" then ["Axios"] else [])
      ++ (if d "zod" then ["Zod"] else [])
      ++ (if d "yup" then ["Yup"] else [])
      ++ (if d "eslint" || ctx.files.any (fun f => strStartsWith f ".eslintrc")
        then ["ESLint"] else [])
      ++ (if d "prettier" || ctx.hasFile ".prettierrc" || ctx.hasFile "prettier.config.js"
        then ["Prettier"] else [])
      ++ (if d "biome" || ctx.hasFile "biome.json" then ["Biome"] else [])
      ++ (if ctx.hasFile "docker-compose.yml" || ctx.hasFile "docker-compose.yaml"
        then ["Docker"] else [])
      ++ (if ctx.hasDir ".github" then ["GitHub Actions"] else [])
    (styling, database, tools)
  else (none, none, [])

-- ============================================
-- Main Detection Function (detectStack)
-- ============================================

/-- The all-`unknown` fallback `StackItem` pushed when nothing is detected. -/
def unknownStackItem : StackItem :=
  ⟨Language.unknown, none, Framework.unknown, none, TestFramework.unknown,
   PackageManager.unknown, ".", none⟩

/-- The per-workspace collection loop of `detectStack`'s monorepo branch. -/
def workspaceStackList (root : FSTree) (cwd : String) (patterns : List String) :
    List StackItem :=
  (scanSubdirectories root patterns).filterMap
    (fun dir => detectStackInDirectory root cwd dir)

/-- `detectStack`'s monorepo branch: workspace stacks in scan order, with a
root pseudo-workspace (`path '.'`, `name 'root'`) prepended when the root
itself resolves to a non-`unknown` language. -/
def monorepoStackList (root : FSTree) (cwd : String) (m : MonorepoInfo) :
    List StackItem :=
  let collected := workspaceStackList root cwd m.workspaces
  match detectStackInDirectory root cwd "." with
  | some rootStack =>
    if rootStack.language ≠ Language.unknown
    then { rootStack with path := ".", name := some "root" } :: collected
    else collected
  | none => collected

/-- `detectStack`'s non-monorepo branch: languages reordered so the primary
application framework's language comes first, then one `StackItem` per
(language, framework) pair, or per bare language. -/
def rootStackList (ctx : DetectorContext) : List StackItem :=
  let languages : List LanguageInfo := detectAllLanguages ctx
  let frameworks : List FrameworkInfo := detectAllFrameworks ctx languages
  let primaryAppFramework : Option FrameworkInfo :=
    frameworks.find? (fun f => appFrameworks.contains f.framework)
  let orderedLanguages : List LanguageInfo :=
    match primaryAppFramework with
    | some fw =>
      (languages.filter (fun l => l.language = fw.language))
        ++ (languages.filter (fun l => l.language ≠ fw.language))
    | none => languages
  orderedLanguages.flatMap (fun lang =>
    if lang.language = Language.unknown then []
    else
      let langFrameworks := frameworks.filter (fun f => f.language = lang.language)
      let testFramework := detectTestFramework ctx lang.language
      let packageManager := detectPackageManager ctx lang.language
      if langFrameworks.length > 0 then
        langFrameworks.map (fun fw =>
          { language := lang.language, languageVersion := lang.version,
            framework := fw.framework, frameworkVersion := fw.version,
            testFramework := testFramework, packageManager := packageManager,
            path := ".", name := none })
      else
        [{ language := lang.language, languageVersion := lang.version,
           framework := Framework.unknown, frameworkVersion := none,
           testFramework := testFramework, packageManager := packageManager,
           path := ".", name := none }])

/-- The stack collection of `detectStack` before the empty-fallback. -/
def detectStackItems (cwd : String) (root : FSTree) : List StackItem :=
  match detectMonorepo (createContext cwd root) with
  | some m => monorepoStackList root cwd m
  | none => rootStackList (createContext cwd root)

/-- `stacks` after the `if (stacks.length === 0)` fallback push. -/
def finalStacks (cwd : String) (root : FSTree) : List StackItem :=
  if (detectStackItems cwd root).isEmpty then [unknownStackItem]
  else detectStackItems cwd root

/-- JS `new Set(...)` insertion-order deduplication. -/
def dedupFirst {α : Type} [DecidableEq α] : List α → List α
  | [] => []
  | x :: xs => x :: (dedupFirst xs).filter (fun y => y ≠ x)

/-- `allLanguages` before its fallback:
`[...new Set(stacks.map(s => s.language))].filter(l => l !== 'unknown')`. -/
def stackLanguages (items : List StackItem) : List Language :=
  (dedupFirst (items.map (fun s => s.language))).filter (fun l => l ≠ Language.unknown)

/-- `allFrameworks` before its fallback. -/
def stackFrameworks (items : List StackItem) : List Framework :=
  (dedupFirst (items.map (fun s => s.framework))).filter (fun f => f ≠ Framework.unknown)

/-- `detectStack` (src/detectors/types.ts). -/
def detectStack (cwd : String) (root : FSTree) : TechStack :=
  let ctx := createContext cwd root
  let stackList := finalStacks cwd root
  let primary := stackList.headD unknownStackItem
  let extra := detectAdditionalTools ctx primary.language
  let allLangs := stackLanguages stackList
  let allFws := stackFrameworks stackList
  { language := primary.language
    languageVersion := primary.languageVersion
    framework := primary.framework
    frameworkVersion := primary.frameworkVersion
    testFramework := primary.testFramework
    packageManager := primary.packageManager
    styling := extra.1
    database := extra.2.1
    additionalTools := extra.2.2
    «stacks» := stackList
    monorepo := detectMonorepo ctx
    allLanguages := if allLangs.length > 0 then allLangs else [primary.language]
    allFrameworks := if allFws.length > 0 then allFws else [primary.framework] }

-- ============================================
-- Concrete scenario fixtures
-- ============================================

/-- The marker files consulted by `detectAllLanguages`. -/
def languageMarkerFiles : List String :=
  ["tsconfig.json", "package.json", "go.mod", "pyproject.toml", "requirements.txt",
   "setup.py", "Cargo.toml", "Gemfile", "pom.xml", "build.gradle", "build.gradle.kts",
   "composer.json"]

/-- A directory with no entries at all. -/
def emptyDir : FSTree := .node [] []

/-- A `package.json` manifest declaring the Express server framework. -/
def apiPkgJson : Json := .obj
  [("name", .str "api"), ("dependencies", .obj [("express", .str "^4.18.2")])]

/-- The C5 scenario root: a pnpm workspace file whose glob expands to two
subdirectories, `packages/api` (an Express manifest) and `packages/web`
(no recognizable manifest). -/
def c5Root : FSTree := .node
  [("pnpm-workspace.yaml", FileData.mk "packages:\n  - 'packages/*'\n" none)]
  [("packages", .node []
     [("api", .node [("package.json", FileData.mk "" (some apiPkgJson))] []),
      ("web", .node [] [])])]

/-- The `StackItem` detected for `packages/api` in the C5 scenario. -/
def c5ApiItem : StackItem :=
  ⟨Language.javascript, none, Framework.express, some "4.18.2",
   TestFramework.unknown, PackageManager.npm, "packages/api", some "api"⟩

/-- A directory with a tsconfig.json and a syntactically broken package.json
(its `JSON.parse` fails). -/
def brokenPkgDir : FSTree := .node
  [("tsconfig.json", FileData.mk "" (some (.obj []))),
   ("package.json", FileData.mk "not json at all" none)] []

/-- A monorepo whose root directory itself carries a `package.json`, so the
root is re-probed as a pseudo-workspace. -/
def c6Root : FSTree := .node
  [("pnpm-workspace.yaml", FileData.mk "packages:\n  - 'packages/*'\n" none),
   ("package.json", FileData.mk "" (some (.obj [])))]
  [("packages", .node []
     [("api", .node [("package.json", FileData.mk "" (some apiPkgJson))] [])])]

-- ============================================
-- END OF DEFINITIONS
-- ============================================

-- ============================================
-- Helper lemmas
-- ============================================

/-- Two distinct values cannot together be counted more often than the
length of the list. -/
theorem count_pair_le {α : Type} [DecidableEq α] (a b : α) (h : a ≠ b)
    (l : List α) : l.count a + l.count b ≤ l.length := by
  induction l with
  | nil => simp
  | cons x xs ih =>
    simp only [List.count_cons, List.length_cons, beq_iff_eq]
    rcases eq_or_ne x a with rfl | hax
    · rw [if_pos rfl, if_neg (fun hh : x = b => h hh)]
      omega
    · rw [if_neg hax]
      rcases eq_or_ne x b with rfl | hbx
      · rw [if_pos rfl]
        omega
      · rw [if_neg hbx]
        omega

theorem dominantFold_keep (count : NamingConvention → Nat) (c : NamingConvention)
    (L : List NamingConvention) (h : ∀ x ∈ L, count x ≤ count c) :
    L.foldl (fun acc x => if count x > acc.2 then (x, count x) else acc)
      (c, count c) = (c, count c) := by
  induction L with
  | nil => rfl
  | cons x xs ih =>
    have hx : count x ≤ count c := h x (by simp)
    simp only [List.foldl_cons]
    have : ¬ (count x > count c) := by omega
    simp only [this, if_false]
    exact ih (fun y hy => h y (by simp [hy]))

theorem dominantFold_reach (count : NamingConvention → Nat) (c : NamingConvention) :
    ∀ (L : List NamingConvention) (acc : NamingConvention × Nat),
    c ∈ L → (∀ x ∈ L, x ≠ c → count x < count c) → acc.2 < count c →
    L.foldl (fun acc x => if count x > acc.2 then (x, count x) else acc)
      acc = (c, count c) := by
  intro L
  induction L with
  | nil =>
    intro acc hc _ _
    exact absurd hc (by simp)
  | cons x xs ih =>
    intro acc hc hlt hacc
    simp only [List.foldl_cons]
    by_cases hxc : x = c
    · subst hxc
      have hgt : count x > acc.2 := hacc
      simp only [hgt, if_true]
      exact dominantFold_keep count x xs
        (fun y hy => by
          by_cases hyx : y = x
          · simp [hyx]
          · exact le_of_lt (hlt y (by simp [hy]) hyx))
    · have hcxs : c ∈ xs := by
        rcases List.mem_cons.mp hc with h1 | h1
        · exact absurd h1.symm hxc
        · exact h1
      have hx : count x < count c := hlt x (by simp) hxc
      by_cases hgt : count x > acc.2
      · simp only [hgt, if_true]
        exact ih _ hcxs (fun y hy hyne => hlt y (by simp [hy]) hyne) hx
      · simp only [hgt, if_false]
        exact ih _ hcxs (fun y hy hyne => hlt y (by simp [hy]) hyne) hacc

/-- The dominant-scan fold either keeps its initial accumulator or returns a
convention paired with its own tally. -/
theorem dominantFold_inv (count : NamingConvention → Nat)
    (L : List NamingConvention) :
    ∀ acc : NamingConvention × Nat,
    (acc = (NamingConvention.mixed, 0) ∨ ∃ x, acc = (x, count x)) →
    (L.foldl (fun acc x => if count x > acc.2 then (x, count x) else acc) acc
      = (NamingConvention.mixed, 0)
    ∨ ∃ x, L.foldl (fun acc x => if count x > acc.2 then (x, count x) else acc) acc
      = (x, count x)) := by
  induction L with
  | nil =>
    intro acc h
    simpa using h
  | cons y ys ih =>
    intro acc h
    simp only [List.foldl_cons]
    by_cases hgt : count y > acc.2
    · exact ih _ (Or.inr ⟨y, by simp [hgt]⟩)
    · refine ih _ ?_
      simpa [hgt] using h

theorem pickDominant_of_strictMax (count : NamingConvention → Nat)
    (c : NamingConvention) (hpos : 0 < count c)
    (hlt : ∀ x, x ≠ c → count x < count c) :
    pickDominant count = (c, count c) := by
  unfold pickDominant
  exact dominantFold_reach count c conventionOrder (NamingConvention.mixed, 0)
    (by cases c <;> simp [conventionOrder])
    (fun x _ hx => hlt x hx) hpos

/-- Summing the tallies of all six conventions accounts for every sample. -/
theorem countAll_conventions (l : List NamingConvention) :
    (conventionOrder.map fun c => l.count c).sum = l.length := by
  induction l with
  | nil => simp [conventionOrder]
  | cons x xs ih => cases x <;> simp [conventionOrder, List.count_cons] <;>
      simp [conventionOrder] at ih <;> omega

-- ============================================
-- Claim theorems: C2 and C9
-- ============================================

/-- C2: the naming-convention classifier returns `mixed` on the empty
sample; it returns casing style `c` whenever at least 60% of the samples
tally to `c`; and it returns `mixed` whenever no convention's tally reaches
60% of the sample (in particular for a sample evenly split across two or
more styles). -/
theorem C2_namingThreshold :
    detectNamingConvention [] = NamingConvention.mixed
    ∧ (∀ (samples : List String) (c : NamingConvention), samples ≠ [] →
        c ≠ NamingConvention.mixed → 3 * samples.length ≤ 5 * tally samples c →
        detectNamingConvention samples = c)
    ∧ (∀ samples : List String,
        (∀ c, 5 * tally samples c < 3 * samples.length) →
        detectNamingConvention samples = NamingConvention.mixed) := by
  refine ⟨rfl, ?_, ?_⟩
  · intro samples c hne hcm hth
    have hn : 0 < samples.length := List.length_pos.mpr hne
    have hpos : 0 < tally samples c := by omega
    have hlt : ∀ x, x ≠ c → tally samples x < tally samples c := by
      intro x hx
      have hpair := count_pair_le x c hx (samples.map classifySample)
      have hlen : (samples.map classifySample).length = samples.length := by simp
      unfold tally at *
      omega
    unfold detectNamingConvention
    rw [pickDominant_of_strictMax (tally samples) c hpos hlt]
    have h0 : ¬ (samples.length = 0) := by omega
    have h1 : ¬ (5 * tally samples c < 3 * samples.length) := by omega
    simp [h0, h1]
  · intro samples hth
    by_cases hn : samples.length = 0
    · unfold detectNamingConvention
      simp [hn]
    · unfold detectNamingConvention
      simp only [hn, if_false]
      rcases dominantFold_inv (tally samples) conventionOrder
          (NamingConvention.mixed, 0) (Or.inl rfl) with h | ⟨x, h⟩
      · unfold pickDominant
        rw [h]
        have : 5 * 0 < 3 * samples.length := by omega
        simp [this]
      · unfold pickDominant
        rw [h]
        have := hth x
        simp only [this, if_true]

/-- Witness for C2: a concrete majority-snake_case sample is classified as
`snake_case`, and a concrete sample evenly split between two styles is
classified as `mixed`. -/
theorem C2_namingThreshold_witness :
    detectNamingConvention ["a/foo_bar.ts", "b/baz_qux.ts", "c/FooBar.ts"]
      = NamingConvention.snakeCase
    ∧ detectNamingConvention ["a/foo_bar.ts", "b/FooBar.ts"]
      = NamingConvention.mixed := by
  constructor
  · exact C2_namingThreshold.2.1 _ NamingConvention.snakeCase
      (by decide) (by decide) (by decide)
  · exact C2_namingThreshold.2.2 _ (by decide)

/-- C9 counterexample: the five casing regexes are not mutually exclusive —
the extension-stripped base name `foo` matches three of them (`camelCase`,
`snake_case` and `kebab-case`), refuting "at most one of the five regexes
matches". -/
theorem C9_counterexample : regexMatchCount "foo" = 3 ∧ ¬ (regexMatchCount "foo" ≤ 1) := by
  decide

/-- C9 amended: the regexes are applied in a fixed order and only the first
match is tallied (`break`), so each sampled name contributes to exactly one
tally even though the regexes themselves overlap: the six tallies always sum
to the sample size. -/
theorem C9_amended_firstMatchTally (samples : List String) :
    (conventionOrder.map (tally samples)).sum = samples.length := by
  have h := countAll_conventions (samples.map classifySample)
  unfold tally
  simpa using h

-- ============================================
-- Document-parser lemmas
-- ============================================

/-- Unpack the `plainLine` conjunction. -/
theorem plainLine_spec (l : String) (h : plainLine l = true) :
    headerCapture l = none ∧ isLevel2Start l = false
      ∧ allAliases.any (fun p => matchesHeaderAlias l p) = false := by
  unfold plainLine at h
  simp only [Bool.and_eq_true, Bool.not_eq_true', Option.isNone_iff_eq_none] at h
  exact ⟨h.1.1, h.1.2, h.2⟩

/-- Unpack the `wellFormedSection` conjunction. -/
theorem wellFormedSection_spec (s : String × List String)
    (h : wellFormedSection s = true) :
    headerCapture ("## " ++ s.1) = some s.1 ∧ trimStr s.1 = s.1 ∧ s.1 ≠ ""
      ∧ ∀ l ∈ s.2, plainLine l = true := by
  unfold wellFormedSection at h
  simp only [Bool.and_eq_true, beq_iff_eq, bne_iff_ne, ne_eq, List.all_eq_true] at h
  exact ⟨h.1.1.1, h.1.1.2, h.1.2, h.2⟩

/-- A plain line matches no alias of any sub-list of `allAliases`. -/
theorem targets_any_false_of_plain (targets : List String)
    (hsub : ∀ p ∈ targets, p ∈ allAliases) (l : String) (hl : plainLine l = true) :
    targets.any (fun p => matchesHeaderAlias l p) = false := by
  have h := (plainLine_spec l hl).2.2
  rw [List.any_eq_false] at h ⊢
  intro p hp
  exact h p (hsub p hp)

/-- A `## `-heading line satisfies the raw `/^##\s/` test. -/
theorem isLevel2Start_heading (h : String) : isLevel2Start ("## " ++ h) = true := by
  unfold isLevel2Start
  have hd : ("## " ++ h).data = '#' :: '#' :: ' ' :: h.data := by
    rw [String.data_append]
    rfl
  rw [hd]
  rfl

-- One-step reductions of the parser loops (the recursing side only).

theorem customGo_nil (hdr : String) (acc : List String) (S : List (String × String)) :
    extractCustomGo [] hdr acc S = flushCustom S hdr acc := rfl

theorem customGo_cons_header (l : String) (ls : List String) (cap hdr : String)
    (acc : List String) (S : List (String × String))
    (hl : headerCapture l = some cap) :
    extractCustomGo (l :: ls) hdr acc S
      = extractCustomGo ls (trimStr cap) [] (flushCustom S hdr acc) := by
  conv_lhs => unfold extractCustomGo
  simp [hl]

theorem customGo_cons_plain (l : String) (ls : List String) (hdr : String)
    (hne : hdr ≠ "") (acc : List String) (S : List (String × String))
    (hl : headerCapture l = none) :
    extractCustomGo (l :: ls) hdr acc S = extractCustomGo ls hdr (acc ++ [l]) S := by
  conv_lhs => unfold extractCustomGo
  simp [hl, hne]

theorem customGo_cons_noHeader (l : String) (ls : List String)
    (acc : List String) (S : List (String × String))
    (hl : headerCapture l = none) :
    extractCustomGo (l :: ls) "" acc S = extractCustomGo ls "" acc S := by
  conv_lhs => unfold extractCustomGo
  simp [hl]

theorem secGo_cons_target (targets : List String) (l : String) (ls : List String)
    (b : Bool) (h : targets.any (fun p => matchesHeaderAlias l p) = true) :
    extractSectionGo targets (l :: ls) b = extractSectionGo targets ls true := by
  conv_lhs => unfold extractSectionGo
  simp [h]

theorem secGo_cons_skip (targets : List String) (l : String) (ls : List String)
    (h : targets.any (fun p => matchesHeaderAlias l p) = false) :
    extractSectionGo targets (l :: ls) false = extractSectionGo targets ls false := by
  conv_lhs => unfold extractSectionGo
  simp [h]

theorem secGo_cons_break (targets : List String) (l : String) (ls : List String)
    (hT : targets.any (fun p => matchesHeaderAlias l p) = false)
    (hE : isLevel2Start l = true) :
    extractSectionGo targets (l :: ls) true = [] := by
  conv_lhs => unfold extractSectionGo
  simp [hT, hE]

theorem secGo_cons_item (targets : List String) (l : String) (ls : List String)
    (hT : targets.any (fun p => matchesHeaderAlias l p) = false)
    (hE : isLevel2Start l = false) :
    extractSectionGo targets (l :: ls) true
      = itemOf l ++ extractSectionGo targets ls true := by
  conv_lhs => unfold extractSectionGo
  simp [hT, hE]

/-- Preamble lines before any heading are skipped by
`extractCustomSections`' loop (the current header is still empty). -/
theorem extractCustomGo_skipPre (pre : List String)
    (h : ∀ l ∈ pre, headerCapture l = none) :
    ∀ (rest : List String) (S : List (String × String)),
    extractCustomGo (pre ++ rest) "" [] S = extractCustomGo rest "" [] S := by
  induction pre with
  | nil =>
    intro rest S
    rfl
  | cons p ps ih =>
    intro rest S
    rw [List.cons_append, customGo_cons_noHeader p (ps ++ rest) [] S (h p (by simp))]
    exact ih (fun l hl => h l (by simp [hl])) rest S

/-- While a (nonempty) current header is active, non-heading lines are only
accumulated onto the current body. -/
theorem extractCustomGo_body (hdr : String) (hne : hdr ≠ "") (b : List String)
    (hb : ∀ l ∈ b, headerCapture l = none) :
    ∀ (rest acc : List String) (S : List (String × String)),
    extractCustomGo (b ++ rest) hdr acc S = extractCustomGo rest hdr (acc ++ b) S := by
  induction b with
  | nil =>
    intro rest acc S
    simp
  | cons x xs ih =>
    intro rest acc S
    rw [List.cons_append, customGo_cons_plain x (xs ++ rest) hdr hne acc S (hb x (by simp))]
    rw [ih (fun l hl => hb l (by simp [hl])) rest (acc ++ [x]) S]
    simp

/-- `extractCustomSections`' loop over a sequence of well-formed sections is
the fold of the save-previous-section step over them. -/
theorem extractCustomGo_sections (sections : List (String × List String))
    (hwf : ∀ s ∈ sections, wellFormedSection s = true) :
    ∀ (hdr : String) (acc : List String) (S : List (String × String)),
    extractCustomGo (sections.flatMap sectionLines) hdr acc S
      = sections.foldl (fun T s => flushCustom T s.1 s.2) (flushCustom S hdr acc) := by
  induction sections with
  | nil =>
    intro hdr acc S
    rfl
  | cons s ss ih =>
    intro hdr acc S
    obtain ⟨hcap, htrim, hne, hbody⟩ := wellFormedSection_spec s (hwf s (by simp))
    rw [List.flatMap_cons]
    show extractCustomGo (("## " ++ s.1) :: (s.2 ++ ss.flatMap sectionLines)) hdr acc S = _
    rw [customGo_cons_header ("## " ++ s.1) (s.2 ++ ss.flatMap sectionLines) s.1 hdr acc S hcap]
    rw [htrim]
    rw [extractCustomGo_body s.1 hne s.2 (fun l hl => (plainLine_spec l (hbody l hl)).1)
      (ss.flatMap sectionLines) [] (flushCustom S hdr acc)]
    simp only [List.nil_append]
    rw [ih (fun t ht => hwf t (by simp [ht])) s.1 s.2 (flushCustom S hdr acc)]
    rfl

/-- The fold of the save-step over sections with distinct nonempty headings
stores, in document order, exactly the non-blocklisted headings with their
joined and trimmed bodies. -/
theorem customFold_spec :
    ∀ (sections : List (String × List String)),
    (∀ s ∈ sections, s.1 ≠ "") →
    (sections.map Prod.fst).Nodup →
    ∀ T0 : List (String × String),
    (∀ s ∈ sections, ∀ kv ∈ T0, kv.1 ≠ s.1) →
    sections.foldl (fun T s => flushCustom T s.1 s.2) T0
      = T0 ++ (sections.filter (fun s => !isKnownHeader s.1)).map
          (fun s => (s.1, trimStr (joinLines s.2))) := by
  intro sections
  induction sections with
  | nil =>
    intro _ _ T0 _
    simp
  | cons s ss ih =>
    intro hne hnodup T0 hdisj
    have hs1 : s.1 ≠ "" := hne s (by simp)
    rw [show (s :: ss).map Prod.fst = s.1 :: ss.map Prod.fst from rfl,
      List.nodup_cons] at hnodup
    obtain ⟨hnotin, hnd2⟩ := hnodup
    rw [List.foldl_cons]
    by_cases hk : isKnownHeader s.1 = true
    · have hflush : flushCustom T0 s.1 s.2 = T0 := by
        unfold flushCustom
        rw [if_neg hs1, if_pos hk]
      rw [hflush]
      rw [ih (fun t ht => hne t (by simp [ht])) hnd2 T0
        (fun t ht kv hkv => hdisj t (by simp [ht]) kv hkv)]
      rw [List.filter_cons_of_neg (by simp [hk])]
    · have hflush : flushCustom T0 s.1 s.2
          = T0 ++ [(s.1, trimStr (joinLines s.2))] := by
        unfold flushCustom
        rw [if_neg hs1, if_neg hk]
        unfold recordSet
        have hany : T0.any (fun p => p.1 = s.1) = false := by
          rw [List.any_eq_false]
          intro kv hkv
          simp only [decide_eq_true_eq]
          exact hdisj s (by simp) kv hkv
        rw [if_neg (by simp [hany])]
      rw [hflush]
      have hdisj2 : ∀ t ∈ ss, ∀ kv ∈ T0 ++ [(s.1, trimStr (joinLines s.2))],
          kv.1 ≠ t.1 := by
        intro t ht kv hkv
        rcases List.mem_append.mp hkv with hkv | hkv
        · exact hdisj t (by simp [ht]) kv hkv
        · simp only [List.mem_singleton] at hkv
          subst hkv
          intro he
          exact hnotin (he ▸ List.mem_map_of_mem Prod.fst ht)
      rw [ih (fun t ht => hne t (by simp [ht])) hnd2 _ hdisj2]
      rw [List.filter_cons_of_pos (by simp [hk])]
      simp

/-- Lines that match no target alias are skipped while not in a section. -/
theorem extractSectionGo_skip (targets : List String) (pre : List String)
    (h : ∀ l ∈ pre, targets.any (fun p => matchesHeaderAlias l p) = false) :
    ∀ rest, extractSectionGo targets (pre ++ rest) false
      = extractSectionGo targets rest false := by
  induction pre with
  | nil =>
    intro rest
    rfl
  | cons p ps ih =>
    intro rest
    rw [List.cons_append, secGo_cons_skip targets p (ps ++ rest) (h p (by simp))]
    exact ih (fun l hl => h l (by simp [hl])) rest

/-- While inside a section, plain body lines contribute exactly their list
items. -/
theorem extractSectionGo_collect (targets : List String) (b : List String)
    (hT : ∀ l ∈ b, targets.any (fun p => matchesHeaderAlias l p) = false)
    (hE : ∀ l ∈ b, isLevel2Start l = false) :
    ∀ rest, extractSectionGo targets (b ++ rest) true
      = b.flatMap itemOf ++ extractSectionGo targets rest true := by
  induction b with
  | nil =>
    intro rest
    simp
  | cons x xs ih =>
    intro rest
    rw [List.cons_append,
      secGo_cons_item targets x (xs ++ rest) (hT x (by simp)) (hE x (by simp))]
    rw [ih (fun l hl => hT l (by simp [hl])) (fun l hl => hE l (by simp [hl])) rest]
    simp [List.flatMap_cons, List.append_assoc]

/-- `extractSection` over a sequence of well-formed sections, at most one of
which matches the targets: it returns exactly the list items of the first
matching section's body. -/
theorem extractSection_of_sections (targets : List String)
    (hsub : ∀ p ∈ targets, p ∈ allAliases) :
    ∀ (sections : List (String × List String)),
    (∀ s ∈ sections, wellFormedSection s = true) →
    (sections.filter (fun s => targets.any
        (fun p => matchesHeaderAlias ("## " ++ s.1) p))).length ≤ 1 →
    extractSectionGo targets (sections.flatMap sectionLines) false
      = firstSectionItems targets sections := by
  intro sections
  induction sections with
  | nil =>
    intro _ _
    rfl
  | cons s ss ih =>
    intro hwf huniq
    obtain ⟨hcap, htrim, hne, hbody⟩ := wellFormedSection_spec s (hwf s (by simp))
    rw [List.flatMap_cons]
    by_cases hmatch : targets.any (fun p => matchesHeaderAlias ("## " ++ s.1) p) = true
    · have hfilter : ss.filter (fun t => targets.any
          (fun p => matchesHeaderAlias ("## " ++ t.1) p)) = [] := by
        rw [List.filter_cons_of_pos (by exact hmatch)] at huniq
        simp only [List.length_cons] at huniq
        exact List.length_eq_zero.mp (by omega)
      have hnomatch : ∀ t ∈ ss, targets.any
          (fun p => matchesHeaderAlias ("## " ++ t.1) p) = false := by
        intro t ht
        have := List.filter_eq_nil_iff.mp hfilter t ht
        simpa using this
      show extractSectionGo targets
          (("## " ++ s.1) :: (s.2 ++ ss.flatMap sectionLines)) false = _
      rw [secGo_cons_target targets ("## " ++ s.1) (s.2 ++ ss.flatMap sectionLines)
        false hmatch]
      rw [extractSectionGo_collect targets s.2
        (fun l hl => targets_any_false_of_plain targets hsub l (hbody l hl))
        (fun l hl => (plainLine_spec l (hbody l hl)).2.1)
        (ss.flatMap sectionLines)]
      have htail : extractSectionGo targets (ss.flatMap sectionLines) true = [] := by
        cases hss : ss with
        | nil => rfl
        | cons s2 ss2 =>
          rw [List.flatMap_cons]
          show extractSectionGo targets
            (("## " ++ s2.1) :: (s2.2 ++ ss2.flatMap sectionLines)) true = []
          exact secGo_cons_break targets _ _
            (hnomatch s2 (by simp [hss])) (isLevel2Start_heading s2.1)
      rw [htail]
      unfold firstSectionItems
      rw [List.find?_cons_of_pos _ (by exact hmatch)]
      simp
    · have hm : targets.any (fun p => matchesHeaderAlias ("## " ++ s.1) p) = false := by
        simpa using hmatch
      have hpre : ∀ l ∈ ("## " ++ s.1) :: s.2,
          targets.any (fun p => matchesHeaderAlias l p) = false := by
        intro l hl
        rcases List.mem_cons.mp hl with rfl | hl2
        · exact hm
        · exact targets_any_false_of_plain targets hsub l (hbody l hl2)
      have hstep : firstSectionItems targets (s :: ss) = firstSectionItems targets ss := by
        unfold firstSectionItems
        rw [List.find?_cons_of_neg _ (by exact hmatch)]
      rw [hstep]
      show extractSectionGo targets
          ((("## " ++ s.1) :: s.2) ++ ss.flatMap sectionLines) false = _
      rw [extractSectionGo_skip targets (("## " ++ s.1) :: s.2) hpre
        (ss.flatMap sectionLines)]
      refine ih (fun t ht => hwf t (by simp [ht])) ?_
      rw [List.filter_cons_of_neg (by exact hmatch)] at huniq
      exact huniq

/-- Looking a non-blocklisted section's heading up in the stored custom map
(distinct headings) returns that section's trimmed body. -/
theorem lookup_customMap :
    ∀ (sections : List (String × List String)) (s : String × List String),
    s ∈ sections → (sections.map Prod.fst).Nodup → isKnownHeader s.1 = false →
    ((sections.filter (fun x => !isKnownHeader x.1)).map
        (fun x => (x.1, trimStr (joinLines x.2)))).lookup s.1
      = some (trimStr (joinLines s.2)) := by
  intro sections
  induction sections with
  | nil =>
    intro s hs _ _
    cases hs
  | cons x xs ih =>
    intro s hs hnodup hk
    rw [show (x :: xs).map Prod.fst = x.1 :: xs.map Prod.fst from rfl,
      List.nodup_cons] at hnodup
    obtain ⟨hnotin, hnd2⟩ := hnodup
    rcases List.mem_cons.mp hs with rfl | hmem
    · rw [List.filter_cons_of_pos (by simp [hk])]
      simp [List.lookup]
    · by_cases hkx : isKnownHeader x.1 = true
      · rw [List.filter_cons_of_neg (by simp [hkx])]
        exact ih s hmem hnd2 hk
      · rw [List.filter_cons_of_pos (by simp [hkx])]
        have hne : s.1 ≠ x.1 := by
          intro he
          exact hnotin (he ▸ List.mem_map_of_mem Prod.fst hmem)
        have hb : (s.1 == x.1) = false := beq_eq_false_iff_ne.mpr hne
        simp only [List.map_cons, List.lookup, hb]
        exact ih s hmem hnd2 hk

-- ============================================
-- Claim theorems: C3
-- ============================================

/-- C3 counterexample, refuting both clauses of the claim at concrete
inputs.  (1) The heading `Commands` is in none of the five recognized
categories' alias lists, yet `## Commands\nnpm run dev` produces NO custom
section at all, because `extractCustomSections` filters by a separate
substring blocklist that also contains `commands` — so "each section heading
that is not in any known alias list yields an entry in customSections" is
false.  (2) For the (blocklist-free, alias-free) heading `Notes` with raw
body lines `["body text", ""]`, the stored value is the trimmed join
`"body text"`, not the verbatim join `"body text\n"` — so "whose value is
the full body of that section verbatim" is also false. -/
theorem C3_counterexample :
    inAliasLists "Commands" = false
    ∧ (extractCustomSections "## Commands\nnpm run dev").lookup "Commands" = none
    ∧ (parseClaudeMd "## Commands\nnpm run dev").customSections = []
    ∧ inAliasLists "Notes" = false
    ∧ isKnownHeader "Notes" = false
    ∧ toLines "## Notes\nbody text\n" = ["## Notes", "body text", ""]
    ∧ (parseClaudeMd "## Notes\nbody text\n").customSections
      = [("Notes", "body text")]
    ∧ joinLines ["body text", ""] = "body text\n"
    ∧ trimStr (joinLines ["body text", ""]) = "body text" := by
  refine ⟨by decide, by decide, by decide, by decide, by decide, by decide,
    by decide, by decide, by decide⟩

/-- C3 amended: over every structured rules document — optional preamble,
then any number of well-formed sections with distinct headings, at most one
section matching each category's aliases — `customSections` stores, in
document order, exactly the sections whose lowercased heading contains none
of the known-header substrings (`rules`, `ルール`, `conventions`, `規約`,
`must do`, `prefer`, `warnings`, `注意`, `tech stack`, `commands`,
`project structure`), each keyed by its heading text with the full body
joined and whitespace-trimmed; and each of the five category lists equals
the list items of the body of its (unique) alias-matching section.  The
five lists therefore draw on alias-matching sections only: no custom
section's body contributes to any of them, while the custom bodies
themselves are recovered verbatim up to the parser's trim. -/
theorem C3_amended (doc : String) (preamble : List String)
    (sections : List (String × List String))
    (hsplit : toLines doc = preamble ++ sections.flatMap sectionLines)
    (hpre : ∀ l ∈ preamble, plainLine l = true)
    (hwf : ∀ s ∈ sections, wellFormedSection s = true)
    (hnodup : (sections.map Prod.fst).Nodup)
    (huniq : ∀ targets ∈ categoryAliasLists,
      (sections.filter (fun s => targets.any
        (fun p => matchesHeaderAlias ("## " ++ s.1) p))).length ≤ 1) :
    (parseClaudeMd doc).customSections
      = (sections.filter (fun s => !isKnownHeader s.1)).map
          (fun s => (s.1, trimStr (joinLines s.2)))
    ∧ (∀ s ∈ sections, isKnownHeader s.1 = false →
        ((parseClaudeMd doc).customSections).lookup s.1
          = some (trimStr (joinLines s.2)))
    ∧ (parseClaudeMd doc).rules = firstSectionItems rulesAliases sections
    ∧ (parseClaudeMd doc).conventions = firstSectionItems conventionsAliases sections
    ∧ (parseClaudeMd doc).warnings = firstSectionItems warningsAliases sections
    ∧ (parseClaudeMd doc).mustDo = firstSectionItems mustDoAliases sections
    ∧ (parseClaudeMd doc).prefer = firstSectionItems preferAliases sections := by
  have hnames : ∀ s ∈ sections, s.1 ≠ "" :=
    fun s hs => (wellFormedSection_spec s (hwf s hs)).2.2.1
  have hcs : (parseClaudeMd doc).customSections
      = (sections.filter (fun s => !isKnownHeader s.1)).map
          (fun s => (s.1, trimStr (joinLines s.2))) := by
    show extractCustomSections doc = _
    unfold extractCustomSections
    rw [hsplit]
    rw [extractCustomGo_skipPre preamble
      (fun l hl => (plainLine_spec l (hpre l hl)).1) (sections.flatMap sectionLines) []]
    rw [extractCustomGo_sections sections hwf "" [] []]
    have hinit : flushCustom [] "" [] = [] := by
      unfold flushCustom
      rw [if_pos rfl]
    rw [hinit]
    rw [customFold_spec sections hnames hnodup []
      (fun s _ kv hkv => absurd hkv (List.not_mem_nil kv))]
    simp
  have hsec : ∀ targets : List String, (∀ p ∈ targets, p ∈ allAliases) →
      (sections.filter (fun s => targets.any
        (fun p => matchesHeaderAlias ("## " ++ s.1) p))).length ≤ 1 →
      extractSection doc targets = firstSectionItems targets sections := by
    intro targets hsub hu
    unfold extractSection
    rw [hsplit]
    rw [extractSectionGo_skip targets preamble
      (fun l hl => targets_any_false_of_plain targets hsub l (hpre l hl))
      (sections.flatMap sectionLines)]
    exact extractSection_of_sections targets hsub sections hwf hu
  refine ⟨hcs, ?_, ?_, ?_, ?_, ?_, ?_⟩
  · intro s hs hk
    rw [hcs]
    exact lookup_customMap sections s hs hnodup hk
  · exact hsec rulesAliases (fun p hp => by simp [allAliases]; tauto)
      (huniq rulesAliases (by simp [categoryAliasLists]))
  · exact hsec conventionsAliases (fun p hp => by simp [allAliases]; tauto)
      (huniq conventionsAliases (by simp [categoryAliasLists]))
  · exact hsec warningsAliases (fun p hp => by simp [allAliases]; tauto)
      (huniq warningsAliases (by simp [categoryAliasLists]))
  · exact hsec mustDoAliases (fun p hp => by simp [allAliases]; tauto)
      (huniq mustDoAliases (by simp [categoryAliasLists]))
  · exact hsec preferAliases (fun p hp => by simp [allAliases]; tauto)
      (huniq preferAliases (by simp [categoryAliasLists]))

/-- Witness for C3's amended claim at a concrete multi-section document: a
preamble, a recognized `Rules` section, and a custom `Architecture`
section.  The custom body is captured, the rules list holds exactly the
Rules section's item, and no custom text leaks into any category list. -/
theorem C3_amended_witness :
    (parseClaudeMd
      "intro\n## Rules\n- a\n## Architecture\nkeep domain pure\nuse ports").customSections
      = [("Architecture", "keep domain pure\nuse ports")]
    ∧ (parseClaudeMd
      "intro\n## Rules\n- a\n## Architecture\nkeep domain pure\nuse ports").rules
      = ["a"]
    ∧ (parseClaudeMd
      "intro\n## Rules\n- a\n## Architecture\nkeep domain pure\nuse ports").warnings
      = [] := by
  have h := C3_amended
    "intro\n## Rules\n- a\n## Architecture\nkeep domain pure\nuse ports"
    ["intro"]
    [("Rules", ["- a"]), ("Architecture", ["keep domain pure", "use ports"])]
    (by decide) (by decide) (by decide) (by decide) (by decide)
  refine ⟨?_, ?_, ?_⟩
  · rw [h.1]
    decide
  · rw [h.2.2.1]
    decide
  · rw [h.2.2.2.2.1]
    decide

-- ============================================
-- Claim theorems: C4
-- ============================================

theorem stackScoreOf_bounds (stack : TechStack) :
    0 ≤ stackScoreOf stack ∧ stackScoreOf stack ≤ 1 := by
  unfold stackScoreOf
  split_ifs <;> norm_num

theorem patternsScoreOf_bounds (patterns : CodePatterns) :
    0 ≤ patternsScoreOf patterns ∧ patternsScoreOf patterns ≤ 1 := by
  unfold patternsScoreOf
  split_ifs <;> norm_num

/-- C4: the confidence weights of each sub-score sum to 1; for every stack
and patterns value the overall score is the arithmetic mean of the two
sub-scores and lies in [0, 1]; and a fully `unknown` stack together with an
`unknown` structure (no key directories, no detected file naming
conventions) scores exactly 0. -/
theorem C4_confidence :
    stackWeights.sum = 1 ∧ patternsWeights.sum = 1
    ∧ ∀ (stack : TechStack) (patterns : CodePatterns),
      (calculateConfidence stack patterns).overall
        = ((calculateConfidence stack patterns).stack
            + (calculateConfidence stack patterns).patterns) / 2
      ∧ 0 ≤ (calculateConfidence stack patterns).overall
      ∧ (calculateConfidence stack patterns).overall ≤ 1
      ∧ ((stack.language = Language.unknown ∧ stack.framework = Framework.unknown
          ∧ stack.testFramework = TestFramework.unknown
          ∧ stack.packageManager = PackageManager.unknown
          ∧ patterns.struct.type = StructureType.unknown
          ∧ patterns.struct.keyDirectories = []
          ∧ patterns.naming.files.components = none
          ∧ patterns.naming.files.utilities = none) →
          (calculateConfidence stack patterns).overall = 0) := by
  refine ⟨by norm_num [stackWeights], by norm_num [patternsWeights], ?_⟩
  intro stack patterns
  obtain ⟨hs0, hs1⟩ := stackScoreOf_bounds stack
  obtain ⟨hp0, hp1⟩ := patternsScoreOf_bounds patterns
  refine ⟨rfl, ?_, ?_, ?_⟩
  · show 0 ≤ (stackScoreOf stack + patternsScoreOf patterns) / 2
    linarith
  · show (stackScoreOf stack + patternsScoreOf patterns) / 2 ≤ 1
    linarith
  · rintro ⟨h1, h2, h3, h4, h5, h6, h7, h8⟩
    show (stackScoreOf stack + patternsScoreOf patterns) / 2 = 0
    unfold stackScoreOf patternsScoreOf
    simp [h1, h2, h3, h4, h5, h6, h7, h8]

/-- Witness for C4 at a concrete fully-unknown stack and patterns value. -/
theorem C4_confidence_witness :
    (calculateConfidence
      (TechStack.mk Language.unknown none Framework.unknown none
        TestFramework.unknown PackageManager.unknown none none [] [] none [] [])
      (CodePatterns.mk
        (NamingPatterns.mk (NamingFiles.mk none none none)
          (NamingCode.mk NamingConvention.camelCase NamingConvention.camelCase
            NamingConvention.screamingSnakeCase none none))
        (DirectoryStructure.mk StructureType.unknown "." none []))).overall = 0 := by
  exact ((C4_confidence.2.2 _ _).2.2.2
    ⟨rfl, rfl, rfl, rfl, rfl, rfl, rfl, rfl⟩)

-- ============================================
-- Stack-detector lemmas
-- ============================================

theorem mem_dedupFirst {α : Type} [DecidableEq α] (a : α) (l : List α) :
    a ∈ dedupFirst l ↔ a ∈ l := by
  induction l with
  | nil => simp [dedupFirst]
  | cons x xs ih =>
    by_cases hax : a = x
    · simp [dedupFirst, hax]
    · simp [dedupFirst, List.mem_filter, ih, hax]

theorem finalStacks_ne_nil (cwd : String) (root : FSTree) :
    finalStacks cwd root ≠ [] := by
  unfold finalStacks
  cases hs : (detectStackItems cwd root).isEmpty with
  | true => simp
  | false =>
    simp only [Bool.false_eq_true, if_false]
    intro hnil
    rw [hnil] at hs
    simp at hs

theorem headD_mem {α : Type} (l : List α) (d : α) (h : l ≠ []) : l.headD d ∈ l := by
  cases l with
  | nil => exact absurd rfl h
  | cons x xs => simp [List.headD]

/-- Every entry of the pre-fallback detected-language list names a concrete
language (the `unknown` sentinel only arises from the fallback). -/
theorem detectedLanguages_ne_unknown (ctx : DetectorContext) :
    ∀ l ∈ detectedLanguages ctx, l.language ≠ Language.unknown := by
  intro l hl
  unfold detectedLanguages at hl
  simp only [List.mem_append] at hl
  rcases hl with ((((((hl | hl) | hl) | hl) | hl) | hl) | hl) <;>
    (split at hl <;> simp_all)

theorem detectAllLanguages_ne_nil (ctx : DetectorContext) :
    detectAllLanguages ctx ≠ [] := by
  unfold detectAllLanguages
  split
  · rename_i h
    intro hnil
    rw [hnil] at h
    simp at h
  · simp

/-- `detectAllLanguages` either reports only concrete languages or is the
single-`unknown` fallback. -/
theorem detectAllLanguages_cases (ctx : DetectorContext) :
    (∀ l ∈ detectAllLanguages ctx, l.language ≠ Language.unknown)
    ∨ detectAllLanguages ctx = [⟨Language.unknown, none⟩] := by
  unfold detectAllLanguages
  split
  · exact Or.inl (detectedLanguages_ne_unknown ctx)
  · exact Or.inr rfl

/-- The primary language chosen by `pickPrimary` is one of the detected
languages. -/
theorem pickPrimary_fst_mem (ls : List LanguageInfo) (fs : List FrameworkInfo)
    (h : ls ≠ []) : (pickPrimary ls fs).1 ∈ ls := by
  unfold pickPrimary
  split
  · rename_i fw _
    cases hfind : ls.find? (fun l => l.language = fw.language) with
    | some l =>
      simp only [hfind, Option.getD_some]
      exact List.mem_of_find?_eq_some hfind
    | none =>
      simp only [hfind, Option.getD_none]
      exact headD_mem ls default h
  · split
    · rename_i fw0 _
      cases hfind : ls.find? (fun l => l.language = fw0.language) with
      | some l =>
        simp only [hfind, Option.getD_some]
        exact List.mem_of_find?_eq_some hfind
      | none =>
        simp only [hfind, Option.getD_none]
        exact headD_mem ls default h
    · exact headD_mem ls default h

/-- `detectPackageManager` yields `unknown` exactly for the `unknown`
language. -/
theorem detectPackageManager_unknown_iff (ctx : DetectorContext) (lang : Language) :
    detectPackageManager ctx lang = PackageManager.unknown ↔ lang = Language.unknown := by
  cases lang <;> simp [detectPackageManager] <;> split_ifs <;> simp

-- ============================================
-- Claim theorems: C1
-- ============================================

/-- C1 counterexample: for a root directory with no entries at all, the
returned `allLanguages` and `allFrameworks` are exactly `['unknown']` — the
filtered lists are empty, so `detectStack` falls back to
`[primary.language]` / `[primary.framework]`, which are the `unknown`
sentinels.  This refutes "allLanguages and allFrameworks never contain the
member 'unknown'". -/
theorem C1_counterexample :
    (detectStack "" emptyDir).allLanguages = [Language.unknown]
    ∧ (detectStack "" emptyDir).allFrameworks = [Framework.unknown]
    ∧ Language.unknown ∈ (detectStack "" emptyDir).allLanguages := by
  refine ⟨by decide, by decide, by decide⟩

/-- C1 amended: `stacks` is never empty (falling back to a single all-
`unknown` `StackItem`), and `allLanguages` / `allFrameworks` contain
`unknown` only in the fallback case in which every detected stack's
language (resp. framework) is `unknown` — in that case the list is exactly
`['unknown']`.  Whenever any stack has a known language (resp. framework),
`unknown` is filtered out. -/
theorem C1_amended (cwd : String) (root : FSTree) :
    (detectStack cwd root).stacks ≠ []
    ∧ (Language.unknown ∈ (detectStack cwd root).allLanguages →
        (detectStack cwd root).allLanguages = [Language.unknown]
        ∧ ∀ s ∈ (detectStack cwd root).stacks, s.language = Language.unknown)
    ∧ (Framework.unknown ∈ (detectStack cwd root).allFrameworks →
        (detectStack cwd root).allFrameworks = [Framework.unknown]
        ∧ ∀ s ∈ (detectStack cwd root).stacks, s.framework = Framework.unknown) := by
  have hst : (detectStack cwd root).stacks = finalStacks cwd root := rfl
  have hal : (detectStack cwd root).allLanguages =
      (if (stackLanguages (finalStacks cwd root)).length > 0
       then stackLanguages (finalStacks cwd root)
       else [((finalStacks cwd root).headD unknownStackItem).language]) := rfl
  have haf : (detectStack cwd root).allFrameworks =
      (if (stackFrameworks (finalStacks cwd root)).length > 0
       then stackFrameworks (finalStacks cwd root)
       else [((finalStacks cwd root).headD unknownStackItem).framework]) := rfl
  have hne := finalStacks_ne_nil cwd root
  refine ⟨by rw [hst]; exact hne, ?_, ?_⟩
  · intro hmem
    rw [hal] at hmem ⊢
    rw [hst]
    by_cases hlen : 0 < (stackLanguages (finalStacks cwd root)).length
    · rw [if_pos hlen] at hmem
      unfold stackLanguages at hmem
      simp [List.mem_filter] at hmem
    · rw [if_neg hlen] at hmem ⊢
      have hempty : stackLanguages (finalStacks cwd root) = [] :=
        List.length_eq_zero.mp (by omega)
      simp only [List.mem_singleton] at hmem
      constructor
      · rw [← hmem]
      · intro s hs
        unfold stackLanguages at hempty
        rw [List.filter_eq_nil_iff] at hempty
        have := hempty s.language
          ((mem_dedupFirst _ _).mpr (List.mem_map_of_mem (fun x => x.language) hs))
        simpa using this
  · intro hmem
    rw [haf] at hmem ⊢
    rw [hst]
    by_cases hlen : 0 < (stackFrameworks (finalStacks cwd root)).length
    · rw [if_pos hlen] at hmem
      unfold stackFrameworks at hmem
      simp [List.mem_filter] at hmem
    · rw [if_neg hlen] at hmem ⊢
      have hempty : stackFrameworks (finalStacks cwd root) = [] :=
        List.length_eq_zero.mp (by omega)
      simp only [List.mem_singleton] at hmem
      constructor
      · rw [← hmem]
      · intro s hs
        unfold stackFrameworks at hempty
        rw [List.filter_eq_nil_iff] at hempty
        have := hempty s.framework
          ((mem_dedupFirst _ _).mpr (List.mem_map_of_mem (fun x => x.framework) hs))
        simpa using this

/-- Witness for C1's amended claim at the empty directory, where the
fallback case is exercised. -/
theorem C1_amended_witness :
    (detectStack "" emptyDir).stacks ≠ []
    ∧ (detectStack "" emptyDir).allLanguages = [Language.unknown] := by
  refine ⟨(C1_amended "" emptyDir).1, ((C1_amended "" emptyDir).2.1 ?_).1⟩
  decide

-- ============================================
-- Claim theorems: C5
-- ============================================

/-- C5: for the scenario root (workspace config whose glob expands to
`packages/api` with an Express manifest and `packages/web` with no
recognizable manifest), `detectStack` returns exactly one stack, for the
recognized directory, whose `path` is `packages/api` (the manifest-less
directory is dropped, and the root itself contributes nothing). -/
theorem C5_workspaceScenario :
    (detectStack "" c5Root).stacks = [c5ApiItem]
    ∧ (detectStack "" c5Root).stacks.length = 1
    ∧ ((detectStack "" c5Root).stacks.headD unknownStackItem).path = "packages/api" := by
  refine ⟨by decide, by decide, by decide⟩

-- ============================================
-- Claim theorems: C7
-- ============================================

/-- C7: monorepo detection is a pure function of the directory context
(hence deterministic across runs) and resolves multiple simultaneous
workspace markers by the fixed priority chain pnpm-workspace.yaml >
package.json `workspaces` (yarn.lock deciding yarn vs npm) > turbo.json >
nx.json > lerna.json > go.work > Cargo.toml `[workspace]`; exactly one
system is ever reported, never a merge. -/
theorem C7_monorepoPriority (ctx : DetectorContext) :
    (detectMonorepo ctx).map MonorepoInfo.type =
      (if ctx.hasFile "pnpm-workspace.yaml" then some MonorepoType.pnpmWorkspaces
       else if jsTruthy ((ctx.readJson "package.json").bind (fun j => j.get? "workspaces"))
       then some (if ctx.hasFile "yarn.lock" then MonorepoType.yarnWorkspaces
                  else MonorepoType.npmWorkspaces)
       else if ctx.hasFile "turbo.json" then some MonorepoType.turborepo
       else if ctx.hasFile "nx.json" then some MonorepoType.nx
       else if ctx.hasFile "lerna.json" then some MonorepoType.lerna
       else if ctx.hasFile "go.work" then some MonorepoType.goWorkspace
       else match ctx.readFile "Cargo.toml" with
         | some cargo =>
           if strIncludes cargo "[workspace]" then some MonorepoType.cargoWorkspace
           else none
         | none => none) := by
  by_cases h1 : ctx.hasFile "pnpm-workspace.yaml" = true
  · simp [detectMonorepo, h1]
  · by_cases h2 : jsTruthy ((ctx.readJson "package.json").bind
        (fun j => j.get? "workspaces")) = true
    · simp [detectMonorepo, h1, h2]
    · by_cases h3 : ctx.hasFile "turbo.json" = true
      · simp [detectMonorepo, h1, h2, h3]
      · by_cases h4 : ctx.hasFile "nx.json" = true
        · simp [detectMonorepo, h1, h2, h3, h4]
        · by_cases h5 : ctx.hasFile "lerna.json" = true
          · simp [detectMonorepo, h1, h2, h3, h4, h5]
          · by_cases h6 : ctx.hasFile "go.work" = true
            · simp [detectMonorepo, h1, h2, h3, h4, h5, h6]
            · cases h7 : ctx.readFile "Cargo.toml" with
              | none => simp [detectMonorepo, h1, h2, h3, h4, h5, h6, h7]
              | some cargo =>
                by_cases h8 : strIncludes cargo "[workspace]" = true <;>
                  simp [detectMonorepo, h1, h2, h3, h4, h5, h6, h7, h8]

-- ============================================
-- Claim theorems: C8
-- ============================================

/-- C8: a directory with none of the recognized marker files yields exactly
`[{language: unknown}]`; and an unreadable or malformed manifest is resolved
locally as absent content (here: a present tsconfig.json with an unparseable
package.json still detects TypeScript, with no version and no error — the
same result as when package.json's content is unreadable). -/
theorem C8_unknownFallback :
    (∀ ctx : DetectorContext,
      (∀ f ∈ languageMarkerFiles, ctx.hasFile f = false) →
      detectAllLanguages ctx = [⟨Language.unknown, none⟩])
    ∧ (∀ ctx : DetectorContext,
      ctx.hasFile "tsconfig.json" = true →
      ctx.fileJson "package.json" = none →
      (∀ f ∈ languageMarkerFiles, f ≠ "tsconfig.json" → f ≠ "package.json" →
        ctx.hasFile f = false) →
      detectAllLanguages ctx = [⟨Language.typescript, none⟩]) := by
  constructor
  · intro ctx h
    have h1 := h "tsconfig.json" (by simp [languageMarkerFiles])
    have h2 := h "package.json" (by simp [languageMarkerFiles])
    have h3 := h "go.mod" (by simp [languageMarkerFiles])
    have h4 := h "pyproject.toml" (by simp [languageMarkerFiles])
    have h5 := h "requirements.txt" (by simp [languageMarkerFiles])
    have h6 := h "setup.py" (by simp [languageMarkerFiles])
    have h7 := h "Cargo.toml" (by simp [languageMarkerFiles])
    have h8 := h "Gemfile" (by simp [languageMarkerFiles])
    have h9 := h "pom.xml" (by simp [languageMarkerFiles])
    have h10 := h "build.gradle" (by simp [languageMarkerFiles])
    have h11 := h "build.gradle.kts" (by simp [languageMarkerFiles])
    have h12 := h "composer.json" (by simp [languageMarkerFiles])
    unfold detectAllLanguages detectedLanguages
    simp [h1, h2, h3, h4, h5, h6, h7, h8, h9, h10, h11, h12]
  · intro ctx ht hjson h
    have h3 := h "go.mod" (by simp [languageMarkerFiles]) (by simp) (by simp)
    have h4 := h "pyproject.toml" (by simp [languageMarkerFiles]) (by simp) (by simp)
    have h5 := h "requirements.txt" (by simp [languageMarkerFiles]) (by simp) (by simp)
    have h6 := h "setup.py" (by simp [languageMarkerFiles]) (by simp) (by simp)
    have h7 := h "Cargo.toml" (by simp [languageMarkerFiles]) (by simp) (by simp)
    have h8 := h "Gemfile" (by simp [languageMarkerFiles]) (by simp) (by simp)
    have h9 := h "pom.xml" (by simp [languageMarkerFiles]) (by simp) (by simp)
    have h10 := h "build.gradle" (by simp [languageMarkerFiles]) (by simp) (by simp)
    have h11 := h "build.gradle.kts" (by simp [languageMarkerFiles]) (by simp) (by simp)
    have h12 := h "composer.json" (by simp [languageMarkerFiles]) (by simp) (by simp)
    unfold detectAllLanguages detectedLanguages
    simp [DetectorContext.readJson, ht, hjson, h3, h4, h5, h6, h7, h8, h9, h10, h11, h12]

/-- Witness for C8: the empty directory, and a directory holding only a
tsconfig.json plus a package.json whose text does not parse as JSON. -/
theorem C8_unknownFallback_witness :
    detectAllLanguages (createContext "" emptyDir) = [⟨Language.unknown, none⟩]
    ∧ detectAllLanguages (createContext "" brokenPkgDir)
      = [⟨Language.typescript, none⟩] := by
  constructor
  · exact C8_unknownFallback.1 (createContext "" emptyDir) (by decide)
  · exact C8_unknownFallback.2 (createContext "" brokenPkgDir)
      (by decide) (by rfl) (by decide)

-- ============================================
-- Claim theorems: C10
-- ============================================

/-- C10: package-manager detection returns `unknown` exactly when the
language is `unknown`; every stack item produced by the per-directory
detector therefore has a known package manager; and without lock files each
supported language maps to its ecosystem default (npm, go-modules, pip,
cargo, bundler, gradle — maven only with pom.xml — and composer). -/
theorem C10_packageManagerTotal :
    (∀ (ctx : DetectorContext) (lang : Language),
        detectPackageManager ctx lang = PackageManager.unknown ↔ lang = Language.unknown)
    ∧ (∀ (root : FSTree) (cwd rel : String) (item : StackItem),
        detectStackInDirectory root cwd rel = some item →
        item.packageManager ≠ PackageManager.unknown)
    ∧ (∀ ctx : DetectorContext,
        ctx.hasFile "bun.lockb" = false → ctx.hasFile "pnpm-lock.yaml" = false →
        ctx.hasFile "yarn.lock" = false → ctx.hasFile "package-lock.json" = false →
        ctx.hasFile "poetry.lock" = false → ctx.hasFile "pom.xml" = false →
        detectPackageManager ctx Language.typescript = PackageManager.npm
        ∧ detectPackageManager ctx Language.javascript = PackageManager.npm
        ∧ detectPackageManager ctx Language.go = PackageManager.goModules
        ∧ detectPackageManager ctx Language.python = PackageManager.pip
        ∧ detectPackageManager ctx Language.rust = PackageManager.cargo
        ∧ detectPackageManager ctx Language.ruby = PackageManager.bundler
        ∧ detectPackageManager ctx Language.java = PackageManager.gradle
        ∧ detectPackageManager ctx Language.php = PackageManager.composer) := by
  refine ⟨detectPackageManager_unknown_iff, ?_, ?_⟩
  · intro root cwd rel item h
    unfold detectStackInDirectory at h
    cases hres : root.resolve rel with
    | none => rw [hres] at h; cases h
    | some sub =>
      rw [hres] at h
      simp only at h
      by_cases hguard : (detectAllLanguages (createContext (pathJoin cwd rel) sub)).length = 0
          ∨ ((detectAllLanguages (createContext (pathJoin cwd rel) sub)).length = 1
            ∧ ((detectAllLanguages (createContext (pathJoin cwd rel) sub)).headD
                default).language = Language.unknown)
      · rw [if_pos hguard] at h
        cases h
      · rw [if_neg hguard] at h
        have hitem := (Option.some.injEq _ _).mp h
        have hlangs := detectAllLanguages_cases (createContext (pathJoin cwd rel) sub)
        have hnil := detectAllLanguages_ne_nil (createContext (pathJoin cwd rel) sub)
        rcases hlangs with hlangs | hlangs
        · have hmem := pickPrimary_fst_mem
            (detectAllLanguages (createContext (pathJoin cwd rel) sub))
            (detectAllFrameworks (createContext (pathJoin cwd rel) sub)
              (detectAllLanguages (createContext (pathJoin cwd rel) sub))) hnil
          have hlang := hlangs _ hmem
          rw [← hitem]
          simp only [ne_eq]
          rw [detectPackageManager_unknown_iff]
          exact hlang
        · exfalso
          apply hguard
          rw [hlangs]
          simp
  · intro ctx hb hp hy hl hpo hpom
    refine ⟨?_, ?_, ?_, ?_, ?_, ?_, ?_, ?_⟩ <;>
      simp [detectPackageManager, hb, hp, hy, hl, hpo, hpom]

/-- Witness for C10 at concrete inputs: the `unknown` language in an empty
directory maps to `unknown`; the stack item detected for the C5 scenario's
`packages/api` has the npm default. -/
theorem C10_packageManagerTotal_witness :
    detectPackageManager (createContext "" emptyDir) Language.unknown
      = PackageManager.unknown
    ∧ c5ApiItem.packageManager ≠ PackageManager.unknown
    ∧ detectPackageManager (createContext "" emptyDir) Language.java
      = PackageManager.gradle := by
  refine ⟨(C10_packageManagerTotal.1 _ _).mpr rfl, ?_, ?_⟩
  · exact C10_packageManagerTotal.2.1 c5Root "" "packages/api" c5ApiItem (by decide)
  · exact (C10_packageManagerTotal.2.2 (createContext "" emptyDir)
      (by decide) (by decide) (by decide) (by decide) (by decide) (by decide)).2.2.2.2.2.2.1

-- ============================================
-- Claim theorems: C6
-- ============================================

/-- C6: in a monorepo whose root itself resolves to a non-`unknown`
language, the resulting `stacks` array is exactly the root pseudo-workspace
(`name 'root'`, `path '.'`) prepended to the per-workspace stack items in
their scan order — root and workspace stacks are concatenated, never
merged. -/
theorem C6_rootFirst (cwd : String) (root : FSTree) (m : MonorepoInfo) (rs : StackItem)
    (hm : detectMonorepo (createContext cwd root) = some m)
    (hr : detectStackInDirectory root cwd "." = some rs)
    (hlang : rs.language ≠ Language.unknown) :
    (detectStack cwd root).stacks
      = ({ rs with path := ".", name := some "root" })
        :: workspaceStackList root cwd m.workspaces := by
  have hst : (detectStack cwd root).stacks = finalStacks cwd root := rfl
  rw [hst]
  unfold finalStacks detectStackItems
  rw [hm]
  show (if (monorepoStackList root cwd m).isEmpty then [unknownStackItem]
        else monorepoStackList root cwd m) = _
  unfold monorepoStackList
  rw [hr]
  show (if (if rs.language ≠ Language.unknown
            then { rs with path := ".", name := some "root" }
              :: workspaceStackList root cwd m.workspaces
            else workspaceStackList root cwd m.workspaces).isEmpty
        then [unknownStackItem]
        else if rs.language ≠ Language.unknown
          then { rs with path := ".", name := some "root" }
            :: workspaceStackList root cwd m.workspaces
          else workspaceStackList root cwd m.workspaces) = _
  rw [if_pos hlang]
  simp

/-- Witness for C6 at a concrete monorepo whose root has its own
package.json. -/
theorem C6_rootFirst_witness :
    (detectStack "" c6Root).stacks
      = (StackItem.mk Language.javascript none Framework.unknown none
          TestFramework.unknown PackageManager.npm "." (some "root"))
        :: workspaceStackList c6Root "" ["packages/*"] := by
  have h := C6_rootFirst "" c6Root
    (MonorepoInfo.mk MonorepoType.pnpmWorkspaces "" ["packages/*"])
    (StackItem.mk Language.javascript none Framework.unknown none
      TestFramework.unknown PackageManager.npm "." none)
    (by decide) (by decide) (by decide)
  exact h

end Proteus
